import Mathlib

/-!
# PID steering controller with twiddle gain search

A shallow embedding of `src/PID.h` / `src/PID.cpp`.

Number model: every `double` of the source is a rational (`ℚ`), and there are
two models of its arithmetic.  In the exact one (`Init`, `UpdateError`,
`TotalError`, `TwiddleParamUpdate`, ...) every operation is the operation of
`ℚ`: the "finite reals" of the specification.  In the rounded one (`InitF`,
`UpdateErrorF`, `TotalErrorF`, `TwiddleParamUpdateF`, ...) every operation is
followed by rounding to the nearest double (`fl`: IEEE 754 binary64, ties to
even, with subnormals); it is used for the two properties that hold in the exact
model only because sums cancel without rounding.  Infinities, NaN and overflow
are not modelled.  The only division of the source, by `d_smooth_`, is the
division of `ℚ`; statements about the value of the derivative term assume
`d_smooth_ ≠ 0`.

Library model: `TwiddleErrorUpdate` calls the unqualified `abs` on a `double`.
With the headers `PID.cpp` includes, the only `abs` in the global namespace is
the C function `int abs(int)`, defined below as `absInt`.  The function is a
parameter of the model, so the theorems about sequences of operations hold
whatever it computes.

State model: the object `PID` is a record of its data members, and every
member function is a function from the state before the call to the state
after it (and the returned value, when there is one).
-/

namespace PID

/-- Target of one pointer stored in `Kgains_`: the member it points to. -/
inductive GainRef where
  | Kp
  | Ki
  | Kd
  deriving DecidableEq, Repr

end PID

/-- Data members of `class PID` (PID.h lines 8-37), in declaration order. -/
structure PID where
  p_error_ : ℚ
  i_error_ : ℚ
  d_error_ : ℚ
  prev_cte_ : ℚ
  prev_d_error_ : ℚ
  prev_total_error_ : ℚ
  i_max_ : ℚ
  i_cut_ : Bool
  d_max_ : ℚ
  d_smooth_ : ℚ
  error_rate_max_ : ℚ
  Kp_ : ℚ
  Ki_ : ℚ
  Kd_ : ℚ
  Kgains_ : List PID.GainRef
  Kdeltas_ : List ℚ
  twiddle_error_ : ℚ
  twiddle_best_error_ : ℚ
  twiddle_idx_ : Int
  twiddle_switch_ : Bool

namespace PID

/-- The compiler constant `__DBL_MAX__`, the largest finite double:
`(2 - 2^(-52)) * 2^1023`. -/
def DBL_MAX : ℚ := 2 ^ 1024 - 2 ^ 971

/-- `PID::Reset` (PID.cpp lines 12-24). -/
def Reset (s : PID) : PID :=
  { s with
    p_error_ := 0
    i_error_ := 0
    d_error_ := 0
    prev_d_error_ := 0
    prev_total_error_ := 0
    twiddle_error_ := 0 }

/-- `PID::Init` (PID.cpp lines 30-51), applied to the object state `s`. -/
def Init (s : PID) (Kp Ki Kd i_max d_max d_smooth error_rate_max : ℚ) : PID :=
  Reset
    { s with
      Kp_ := Kp
      Ki_ := Ki
      Kd_ := Kd
      i_max_ := i_max
      i_cut_ := false
      d_max_ := d_max
      d_smooth_ := d_smooth
      error_rate_max_ := error_rate_max
      Kgains_ := [GainRef.Kp, GainRef.Ki, GainRef.Kd]
      Kdeltas_ := [0.05, 0.0005, 1.0]
      twiddle_best_error_ := DBL_MAX
      twiddle_idx_ := 0
      twiddle_switch_ := false }

/-- `PID::RateLimit` (PID.cpp lines 114-125). -/
def RateLimit (raw_value prev_value rate_max : ℚ) : ℚ :=
  if raw_value - prev_value > rate_max then prev_value + rate_max
  else if raw_value - prev_value < -rate_max then prev_value - rate_max
  else raw_value

/-- `PID::MinMaxLimit` (PID.cpp lines 130-141). -/
def MinMaxLimit (raw_value minmax_limit : ℚ) : ℚ :=
  if raw_value > minmax_limit then minmax_limit
  else if raw_value < -minmax_limit then -minmax_limit
  else raw_value

/-- The I-term statement of `PID::UpdateError` (PID.cpp lines 64-70). -/
def updateI (s : PID) (cte : ℚ) : ℚ :=
  if s.i_cut_ = false then MinMaxLimit (s.i_error_ + -s.Ki_ * cte) s.i_max_
  else 0

/-- The value assigned to `d_error_` when the D term is recomputed
(PID.cpp lines 74-80). -/
def updateD (s : PID) (cte : ℚ) : ℚ :=
  MinMaxLimit
    (s.prev_d_error_ * (s.d_smooth_ - 1) / s.d_smooth_
      + (-s.Kd_ * (cte - s.prev_cte_)) / s.d_smooth_)
    s.d_max_

/-- `PID::UpdateError` (PID.cpp lines 59-86). -/
def UpdateError (s : PID) (cte : ℚ) : PID :=
  let s1 := { s with p_error_ := -s.Kp_ * cte }
  let s2 := { s1 with i_error_ := updateI s1 cte }
  let s3 :=
    if cte ≠ s2.prev_cte_ then
      { s2 with d_error_ := updateD s2 cte, prev_d_error_ := updateD s2 cte }
    else s2
  { s3 with prev_cte_ := cte }

/-- `PID::TotalError` (PID.cpp lines 94-109): the state after the call and
the returned value. -/
def TotalError (s : PID) : PID × ℚ :=
  let total_error_raw := s.p_error_ + s.i_error_ + s.d_error_
  let total_error_filt :=
    MinMaxLimit (RateLimit total_error_raw s.prev_total_error_ s.error_rate_max_) 1
  ({ s with prev_total_error_ := total_error_filt }, total_error_filt)

/-- Read through a pointer stored in `Kgains_`: the value of `*p`. -/
def GainRef.get (g : GainRef) (s : PID) : ℚ :=
  match g with
  | GainRef.Kp => s.Kp_
  | GainRef.Ki => s.Ki_
  | GainRef.Kd => s.Kd_

/-- Write through a pointer stored in `Kgains_`: the assignment `*p = x`. -/
def GainRef.set (g : GainRef) (s : PID) (x : ℚ) : PID :=
  match g with
  | GainRef.Kp => { s with Kp_ := x }
  | GainRef.Ki => { s with Ki_ := x }
  | GainRef.Kd => { s with Kd_ := x }

/-- The read `v[i]` of a `std::vector` with an `int` index: the index is
converted to the unsigned `size_type`, so a negative index is out of range like
one past the end; an out-of-range access is undefined and gives `none`. -/
def vecAt {α : Type} (v : List α) (i : Int) : Option α :=
  if 0 ≤ i then v[i.toNat]? else none

/-- Conversion of an unsigned value to `int` (32 bits, two's complement). -/
def toInt32 (n : Int) : Int :=
  (n + 2 ^ 31) % 2 ^ 32 - 2 ^ 31

/-- The expression `(twiddle_idx_ + 1) % Kgains_.size()` assigned back to the
`int` `twiddle_idx_`: the sum is an `int` (overflow is undefined), converted to
the 64-bit unsigned `size_t` for the remainder (a zero size is undefined), and
the remainder is converted to `int`. -/
def nextIdx (idx : Int) (size : Nat) : Option Int :=
  if 2 ^ 31 ≤ idx + 1 then none
  else if size = 0 then none
  else some (toInt32 ((idx + 1) % 2 ^ 64 % (size : Int)))

/-- The statement `*Kgains_[twiddle_idx_] += Kdeltas_[twiddle_idx_];`
(PID.cpp lines 169, 191 and 199). -/
def addDeltaToGain (s : PID) : Option PID := do
  let g ← vecAt s.Kgains_ s.twiddle_idx_
  let d ← vecAt s.Kdeltas_ s.twiddle_idx_
  some (g.set s (g.get s + d))

/-- The statement `Kdeltas_[twiddle_idx_] *= c;` (PID.cpp lines 167, 184 and
192). -/
def scaleDelta (s : PID) (c : ℚ) : Option PID := do
  let d ← vecAt s.Kdeltas_ s.twiddle_idx_
  some { s with Kdeltas_ := s.Kdeltas_.set s.twiddle_idx_.toNat (d * c) }

/-- The statements `twiddle_idx_ = (twiddle_idx_ + 1) % Kgains_.size();
*Kgains_[twiddle_idx_] += Kdeltas_[twiddle_idx_];` (PID.cpp lines 168-169 and
198-199). -/
def advanceIdx (s : PID) : Option PID := do
  let i ← nextIdx s.twiddle_idx_ s.Kgains_.length
  addDeltaToGain { s with twiddle_idx_ := i }

/-- `PID::TwiddleParamUpdate` (PID.cpp lines 163-202), without the log output.
The result is `none` when an index is out of range (undefined behaviour). -/
def TwiddleParamUpdate (s : PID) : Option PID :=
  if s.twiddle_switch_ = false then
    if s.twiddle_error_ < s.twiddle_best_error_ then do
      let s1 ← scaleDelta { s with twiddle_best_error_ := s.twiddle_error_ } 1.2
      advanceIdx s1
    else do
      let g ← vecAt s.Kgains_ s.twiddle_idx_
      let d ← vecAt s.Kdeltas_ s.twiddle_idx_
      some { g.set s (g.get s - 2 * d) with twiddle_switch_ := true }
  else do
    let s1 ←
      if s.twiddle_error_ < s.twiddle_best_error_ then
        scaleDelta { s with twiddle_best_error_ := s.twiddle_error_ } 1.2
      else do
        let s0 ← addDeltaToGain s
        scaleDelta s0 0.8
    let s2 ← advanceIdx s1
    some { s2 with twiddle_switch_ := false }

/-- The C function `int abs(int)` of `<stdlib.h>` applied to a `double`: what
the unqualified call `abs(x)` of `PID.cpp` names, since `<cmath>` puts the
floating-point overloads in namespace `std` only and the file has no using
declaration. The argument is converted to `int` by truncation toward zero, so
the result is the integer part of `|x|` (for `|x| < 2^31`). -/
def absInt (x : ℚ) : ℚ :=
  ((⌊|x|⌋ : Int) : ℚ)

/-- `PID::TwiddleErrorUpdate` (PID.cpp lines 147-150); `absFn` is the function
the unqualified `abs` names (`absInt`). -/
def TwiddleErrorUpdate (absFn : ℚ → ℚ) (s : PID) (cte steer : ℚ) : PID :=
  { s with twiddle_error_ := s.twiddle_error_ + absFn steer + absFn cte }

/-- One call made by the driving loop during an episode (main.cpp lines
153-160): the write of the public member `i_cut_`, `UpdateError`, or
`TotalError`. -/
inductive TickCall where
  | SetIntegralCut (active : Bool)
  | UpdateError (cte : ℚ)
  | TotalError

/-- The state after a sequence of calls, and the values returned by the
`TotalError` calls among them, in call order. -/
def run : PID → List TickCall → PID × List ℚ
  | s, [] => (s, [])
  | s, TickCall.SetIntegralCut active :: cs => run { s with i_cut_ := active } cs
  | s, TickCall.UpdateError cte :: cs => run (UpdateError s cte) cs
  | s, TickCall.TotalError :: cs =>
    ((run (TotalError s).1 cs).1, (TotalError s).2 :: (run (TotalError s).1 cs).2)

/-- One operation on the object made by the driving loop of main.cpp: a call of
a member function, or a write of one of the public members `i_cut_` (lines
153-154) and `twiddle_error_` (line 123). -/
inductive Call where
  | SetIntegralCut (active : Bool)
  | SetTwiddleError (e : ℚ)
  | UpdateError (cte : ℚ)
  | TotalError
  | Reset
  | TwiddleErrorUpdate (cte steer : ℚ)
  | TwiddleParamUpdate

/-- The state after one operation; `none` when `TwiddleParamUpdate` indexes out
of range. -/
def applyCall (absFn : ℚ → ℚ) (s : PID) : Call → Option PID
  | Call.SetIntegralCut active => some { s with i_cut_ := active }
  | Call.SetTwiddleError e => some { s with twiddle_error_ := e }
  | Call.UpdateError cte => some (UpdateError s cte)
  | Call.TotalError => some (TotalError s).1
  | Call.Reset => some (Reset s)
  | Call.TwiddleErrorUpdate cte steer => some (TwiddleErrorUpdate absFn s cte steer)
  | Call.TwiddleParamUpdate => TwiddleParamUpdate s

/-- The state after a sequence of operations. -/
def exec (absFn : ℚ → ℚ) : PID → List Call → Option PID
  | s, [] => some s
  | s, c :: cs => (applyCall absFn s c).bind fun t => exec absFn t cs

/-- The episode errors seen by the `TwiddleParamUpdate` calls of a sequence of
operations: the value of `twiddle_error_` at each such call, in call order. -/
def seenErrors (absFn : ℚ → ℚ) : PID → List Call → List ℚ
  | _, [] => []
  | s, Call.TwiddleParamUpdate :: cs =>
    match TwiddleParamUpdate s with
    | none => []
    | some t => s.twiddle_error_ :: seenErrors absFn t cs
  | s, c :: cs =>
    match applyCall absFn s c with
    | none => []
    | some t => seenErrors absFn t cs

/-- The step size `Kdeltas_[i]` (0 when `i` is out of range). -/
def stepAt (s : PID) (i : Int) : ℚ :=
  (vecAt s.Kdeltas_ i).getD 0

/-- The gain `*Kgains_[i]` (0 when `i` is out of range). -/
def gainAt (s : PID) (i : Int) : ℚ :=
  ((vecAt s.Kgains_ i).map fun g => g.get s).getD 0

/-- The tuner part of the state as `Init` lays it out: the gain list points to
`Kp_`, `Ki_`, `Kd_` in this order, there are three step sizes, and the active
index is 0, 1 or 2. -/
def tunerOk (s : PID) : Prop :=
  s.Kgains_ = [GainRef.Kp, GainRef.Ki, GainRef.Kd] ∧ s.Kdeltas_.length = 3 ∧
    0 ≤ s.twiddle_idx_ ∧ s.twiddle_idx_ < 3

instance (s : PID) : Decidable (tunerOk s) := by
  unfold tunerOk
  infer_instance

/-- An object state with every numeric member zero and empty vectors, used as
the state before `Init` in concrete examples. -/
def blank : PID :=
  { p_error_ := 0, i_error_ := 0, d_error_ := 0, prev_cte_ := 0,
    prev_d_error_ := 0, prev_total_error_ := 0, i_max_ := 0, i_cut_ := false,
    d_max_ := 0, d_smooth_ := 0, error_rate_max_ := 0, Kp_ := 0, Ki_ := 0,
    Kd_ := 0, Kgains_ := [], Kdeltas_ := [], twiddle_error_ := 0,
    twiddle_best_error_ := 0, twiddle_idx_ := 0, twiddle_switch_ := false }

/-- The controller of main.cpp line 64 after one tick with `cte = 1`. -/
def afterOneTick : PID :=
  UpdateError (Init blank 0.084271 0.000690 3.0 1.0 0.2 3.0 0.05) 1

/-- The tuner scenario of the specification: steps all 1.0, best error 10,
episode error 5, increase phase, active index 0. -/
def scenarioTuner : PID :=
  { Init blank 1 1 1 1 1 1 1 with
    Kdeltas_ := [1.0, 1.0, 1.0]
    twiddle_best_error_ := 10
    twiddle_error_ := 5 }

/-- The scenario tuner at a tie: the best error equals the episode error 5. -/
def tieTuner : PID :=
  { scenarioTuner with twiddle_best_error_ := 5 }

/-- The scenario tuner in the decrease phase (best error 10, episode error
5). -/
def decreaseTuner : PID :=
  { scenarioTuner with twiddle_switch_ := true }

/-- The tie tuner in the decrease phase (best error 5, episode error 5). -/
def decreaseTieTuner : PID :=
  { tieTuner with twiddle_switch_ := true }

/-! ## Double arithmetic -/

/-- Rounding of a real to the nearest integer, ties to the even one. -/
def roundHalfEven (y : ℚ) : Int :=
  if y - ⌊y⌋ < 1 / 2 then ⌊y⌋
  else if 1 / 2 < y - ⌊y⌋ then ⌊y⌋ + 1
  else if ⌊y⌋ % 2 = 0 then ⌊y⌋
  else ⌊y⌋ + 1

/-- Exponent of the binade of a double: `e` with `2^e ≤ |x| < 2^(e+1)`, and
-1022 for the subnormal range. -/
def binExp (x : ℚ) : Int :=
  max (Int.log 2 |x|) (-1022)

/-- The double nearest to the real `x` (IEEE 754 binary64, round to nearest,
ties to even): `x` is rounded to an integer multiple of `2^(e - 52)`, `e` the
exponent of its binade. Overflow to infinity (results beyond `__DBL_MAX__`) is
not modelled. -/
def fl (x : ℚ) : ℚ :=
  (roundHalfEven (x / 2 ^ (binExp x - 52)) : ℚ) * 2 ^ (binExp x - 52)

/-- `PID::Init` (PID.cpp lines 30-51) in double arithmetic: as `Init`, with the
step literals `0.05` and `0.0005` the doubles nearest to them (`1.0` and
`__DBL_MAX__` are doubles). -/
def InitF (s : PID) (Kp Ki Kd i_max d_max d_smooth error_rate_max : ℚ) : PID :=
  { Init s Kp Ki Kd i_max d_max d_smooth error_rate_max with
    Kdeltas_ := [fl 0.05, fl 0.0005, 1.0] }

/-- `PID::RateLimit` (PID.cpp lines 114-125) in double arithmetic: the
difference `raw_value - prev_value` and the sums `prev_value ± rate_max` are
rounded. -/
def RateLimitF (raw_value prev_value rate_max : ℚ) : ℚ :=
  if fl (raw_value - prev_value) > rate_max then fl (prev_value + rate_max)
  else if fl (raw_value - prev_value) < -rate_max then fl (prev_value - rate_max)
  else raw_value

/-- The I-term statement of `PID::UpdateError` (PID.cpp lines 64-70) in double
arithmetic. -/
def updateIF (s : PID) (cte : ℚ) : ℚ :=
  if s.i_cut_ = false then MinMaxLimit (fl (s.i_error_ + fl (-s.Ki_ * cte))) s.i_max_
  else 0

/-- The value assigned to `d_error_` when the D term is recomputed (PID.cpp
lines 74-80) in double arithmetic, each operation rounded in the order the
source evaluates it. -/
def updateDF (s : PID) (cte : ℚ) : ℚ :=
  MinMaxLimit
    (fl (fl (fl (s.prev_d_error_ * fl (s.d_smooth_ - 1)) / s.d_smooth_)
      + fl (fl (-s.Kd_ * fl (cte - s.prev_cte_)) / s.d_smooth_)))
    s.d_max_

/-- `PID::UpdateError` (PID.cpp lines 59-86) in double arithmetic. -/
def UpdateErrorF (s : PID) (cte : ℚ) : PID :=
  let s1 := { s with p_error_ := fl (-s.Kp_ * cte) }
  let s2 := { s1 with i_error_ := updateIF s1 cte }
  let s3 :=
    if cte ≠ s2.prev_cte_ then
      { s2 with d_error_ := updateDF s2 cte, prev_d_error_ := updateDF s2 cte }
    else s2
  { s3 with prev_cte_ := cte }

/-- `PID::TotalError` (PID.cpp lines 94-109) in double arithmetic: the state
after the call and the returned value. -/
def TotalErrorF (s : PID) : PID × ℚ :=
  let total_error_raw := fl (fl (s.p_error_ + s.i_error_) + s.d_error_)
  let total_error_filt :=
    MinMaxLimit (RateLimitF total_error_raw s.prev_total_error_ s.error_rate_max_) 1
  ({ s with prev_total_error_ := total_error_filt }, total_error_filt)

/-- The state after a sequence of calls in double arithmetic, and the values
returned by the `TotalError` calls among them, in call order. -/
def runF : PID → List TickCall → PID × List ℚ
  | s, [] => (s, [])
  | s, TickCall.SetIntegralCut active :: cs => runF { s with i_cut_ := active } cs
  | s, TickCall.UpdateError cte :: cs => runF (UpdateErrorF s cte) cs
  | s, TickCall.TotalError :: cs =>
    ((runF (TotalErrorF s).1 cs).1, (TotalErrorF s).2 :: (runF (TotalErrorF s).1 cs).2)

theorem MinMaxLimit_le (x m : ℚ) (hm : 0 ≤ m) : MinMaxLimit x m ≤ m := by
  unfold MinMaxLimit
  split_ifs <;> linarith

theorem neg_le_MinMaxLimit (x m : ℚ) (hm : 0 ≤ m) : -m ≤ MinMaxLimit x m := by
  unfold MinMaxLimit
  split_ifs <;> linarith

theorem TotalError_bounds (s : PID) :
    -1 ≤ (TotalError s).2 ∧ (TotalError s).2 ≤ 1 ∧
      (TotalError s).1.prev_total_error_ = (TotalError s).2 := by
  refine ⟨?_, ?_, rfl⟩
  · exact neg_le_MinMaxLimit _ 1 (by norm_num)
  · exact MinMaxLimit_le _ 1 (by norm_num)

/-- C1: for every controller state the value returned by `TotalError` lies in
`[-1, 1]`, and the stored previous total output after the call is the returned
value. -/
theorem TotalError_in_unit_interval (s : PID) :
    -1 ≤ (TotalError s).2 ∧ (TotalError s).2 ≤ 1 ∧
      (TotalError s).1.prev_total_error_ = (TotalError s).2 :=
  TotalError_bounds s

/-! ## Clamp after a rate-limited step -/

theorem MinMaxLimit_close (x prev r : ℚ) (hx : |x - prev| ≤ r)
    (hlo : -1 ≤ prev) (hhi : prev ≤ 1) : |MinMaxLimit x 1 - prev| ≤ r := by
  unfold MinMaxLimit
  rw [abs_le] at hx ⊢
  obtain ⟨h1, h2⟩ := hx
  split_ifs <;> constructor <;> linarith

/-! ## Error terms -/

/-- C3: with integral bound `i_max ≥ 0`, after `UpdateError(cte)` the integral
term is, when the cut flag is clear, the old term plus `-Ki * cte` clamped to
`[-i_max, i_max]` (so its magnitude is at most `i_max`), and exactly 0 when the
cut flag is set. -/
theorem UpdateError_integral (s : PID) (cte : ℚ) (hi : 0 ≤ s.i_max_) :
    (s.i_cut_ = false →
        (UpdateError s cte).i_error_
            = max (-s.i_max_) (min (s.i_error_ + -s.Ki_ * cte) s.i_max_) ∧
          |(UpdateError s cte).i_error_| ≤ s.i_max_) ∧
      (s.i_cut_ = true → (UpdateError s cte).i_error_ = 0) := by
  have hI : (UpdateError s cte).i_error_ = updateI s cte := by
    unfold UpdateError
    dsimp only
    split_ifs <;> rfl
  rw [hI]
  constructor
  · intro hc
    simp only [updateI, hc, if_true]
    constructor
    · unfold MinMaxLimit
      split_ifs with h1 h2
      · rw [min_eq_right h1.le, max_eq_right (by linarith)]
      · rw [min_eq_left (by linarith), max_eq_left h2.le]
      · rw [min_eq_left (by linarith), max_eq_right (by linarith)]
    · rw [abs_le]
      exact ⟨neg_le_MinMaxLimit _ _ hi, MinMaxLimit_le _ _ hi⟩
  · intro hc
    simp [updateI, hc]

/-- Witness of C3: with `Ki = 1`, bound 3 and `cte = 5` the integral term goes
from 0 to -3 when the cut flag is clear, and from 2 to 0 when it is set. -/
theorem UpdateError_integral_witness :
    (UpdateError (Init blank 0 1 0 3 0 1 0) 5).i_error_ = -3 ∧
      |(UpdateError (Init blank 0 1 0 3 0 1 0) 5).i_error_| ≤ 3 ∧
      (UpdateError { Init blank 0 1 0 3 0 1 0 with i_cut_ := true, i_error_ := 2 } 5).i_error_
        = 0 := by
  have h1 := (UpdateError_integral (Init blank 0 1 0 3 0 1 0) 5
    (by norm_num [Init, Reset])).1 rfl
  have h2 := (UpdateError_integral
    { Init blank 0 1 0 3 0 1 0 with i_cut_ := true, i_error_ := 2 } 5
    (by norm_num [Init, Reset])).2 rfl
  refine ⟨?_, h1.2, h2⟩
  rw [h1.1]
  norm_num [Init, Reset]

theorem UpdateError_same_cte (s : PID) (cte : ℚ) (h : s.prev_cte_ = cte) :
    (UpdateError s cte).d_error_ = s.d_error_ ∧
      (UpdateError s cte).prev_d_error_ = s.prev_d_error_ ∧
      (UpdateError s cte).prev_cte_ = cte := by
  unfold UpdateError
  simp [h]

theorem run_latched (cte : ℚ) (calls : List TickCall)
    (h : ∀ c ∈ calls, ∀ x, c = TickCall.UpdateError x → x = cte) :
    ∀ s : PID, s.prev_cte_ = cte →
      (run s calls).1.d_error_ = s.d_error_ ∧
        (run s calls).1.prev_d_error_ = s.prev_d_error_ := by
  induction calls with
  | nil => intro s _; exact ⟨rfl, rfl⟩
  | cons c cs ih =>
    intro s hs
    have hcs : ∀ c ∈ cs, ∀ x, c = TickCall.UpdateError x → x = cte :=
      fun c hc => h c (List.mem_cons_of_mem _ hc)
    cases c with
    | SetIntegralCut active => exact ih hcs { s with i_cut_ := active } hs
    | UpdateError x =>
      have hx : x = cte := h _ (List.mem_cons_self _ _) x rfl
      subst hx
      have hu := UpdateError_same_cte s x hs
      have := ih hcs (UpdateError s x) hu.2.2
      exact ⟨this.1.trans hu.1, this.2.trans hu.2.1⟩
    | TotalError => exact ih hcs (TotalError s).1 hs

/-- C4 (derivative latching): after one `UpdateError(cte)`, any further calls in
which every `UpdateError` has that same `cte` (with `TotalError` calls and
writes of the cut flag interleaved) leave the derivative term and the stored
previous filtered derivative unchanged. -/
theorem derivative_latched (s : PID) (cte : ℚ) (calls : List TickCall)
    (h : ∀ c ∈ calls, ∀ x, c = TickCall.UpdateError x → x = cte) :
    (run (UpdateError s cte) calls).1.d_error_ = (UpdateError s cte).d_error_ ∧
      (run (UpdateError s cte) calls).1.prev_d_error_
        = (UpdateError s cte).prev_d_error_ :=
  run_latched cte calls h (UpdateError s cte) (by unfold UpdateError; rfl)

/-- Witness of C4: two further ticks with the same `cte`. -/
theorem derivative_latched_witness :
    (run (UpdateError (Init blank 1 1 1 1 1 1 1) 2)
          [TickCall.TotalError, TickCall.UpdateError 2, TickCall.TotalError,
            TickCall.UpdateError 2]).1.d_error_
        = (UpdateError (Init blank 1 1 1 1 1 1 1) 2).d_error_ ∧
      (run (UpdateError (Init blank 1 1 1 1 1 1 1) 2)
          [TickCall.TotalError, TickCall.UpdateError 2, TickCall.TotalError,
            TickCall.UpdateError 2]).1.prev_d_error_
        = (UpdateError (Init blank 1 1 1 1 1 1 1) 2).prev_d_error_ :=
  derivative_latched (Init blank 1 1 1 1 1 1 1) 2 _ (by
    intro c hc x hx
    subst hx
    simp at hc
    exact hc)

/-! ## Reset -/

/-- C5 (fails on the code): after a tick with `cte = 1`, `Reset()` followed by
`UpdateError(0)` with the cut flag clear and `TotalError()` returns 0.05, not
0: `Reset` leaves `prev_cte_` at 1, so the derivative term is recomputed. -/
theorem Reset_then_zero_tick_nonzero :
    (Reset afterOneTick).i_cut_ = false ∧
      (TotalError (UpdateError (Reset afterOneTick) 0)).2 = 0.05 := by
  norm_num [afterOneTick, TotalError, UpdateError, Reset, Init, updateI, updateD,
    MinMaxLimit, RateLimit, blank]

/-- From every state whose `prev_cte_` is 0, `Reset` followed by a tick with
`cte = 0` and the cut flag clear returns 0. -/
theorem Reset_then_zero_tick_of_prev_cte_zero (s : PID) (hp : s.prev_cte_ = 0)
    (hc : s.i_cut_ = false) (hi : 0 ≤ s.i_max_) (hr : 0 ≤ s.error_rate_max_) :
    (TotalError (UpdateError (Reset s) 0)).2 = 0 := by
  have h1 : ¬ s.i_max_ < 0 := not_lt.mpr hi
  have h2 : ¬ s.error_rate_max_ < 0 := not_lt.mpr hr
  simp [TotalError, UpdateError, Reset, updateI, MinMaxLimit, RateLimit, hp, hc, h1, h2]
  norm_num

/-- C6 (fails on the code): `Reset()` does not zero the previous CTE; after a
tick with `cte = 1` it is still 1 after `Reset()`, while the three error terms,
the previous filtered derivative and the previous total are 0. -/
theorem Reset_keeps_prev_cte :
    (Reset afterOneTick).prev_cte_ = 1 ∧ (Reset afterOneTick).p_error_ = 0 ∧
      (Reset afterOneTick).i_error_ = 0 ∧ (Reset afterOneTick).d_error_ = 0 ∧
      (Reset afterOneTick).prev_d_error_ = 0 ∧
      (Reset afterOneTick).prev_total_error_ = 0 := by
  norm_num [afterOneTick, UpdateError, Reset]

/-- C7: `Reset()` leaves the three gains, the four limits, the cut flag and the
tuner's best error, step sizes, gain list, active index and phase flag
unchanged; of the tuner's fields only the episode error changes, to 0. -/
theorem Reset_frame (s : PID) :
    (Reset s).Kp_ = s.Kp_ ∧ (Reset s).Ki_ = s.Ki_ ∧ (Reset s).Kd_ = s.Kd_ ∧
      (Reset s).i_max_ = s.i_max_ ∧ (Reset s).d_max_ = s.d_max_ ∧
      (Reset s).d_smooth_ = s.d_smooth_ ∧
      (Reset s).error_rate_max_ = s.error_rate_max_ ∧
      (Reset s).i_cut_ = s.i_cut_ ∧
      (Reset s).twiddle_best_error_ = s.twiddle_best_error_ ∧
      (Reset s).Kdeltas_ = s.Kdeltas_ ∧ (Reset s).Kgains_ = s.Kgains_ ∧
      (Reset s).twiddle_idx_ = s.twiddle_idx_ ∧
      (Reset s).twiddle_switch_ = s.twiddle_switch_ ∧
      (Reset s).twiddle_error_ = 0 :=
  ⟨rfl, rfl, rfl, rfl, rfl, rfl, rfl, rfl, rfl, rfl, rfl, rfl, rfl, rfl⟩

/-! ## Twiddle: the increase phase -/

theorem nextIdx_zero : nextIdx 0 3 = some 1 := by
  norm_num [nextIdx, toInt32]

theorem nextIdx_one : nextIdx 1 3 = some 2 := by
  norm_num [nextIdx, toInt32]

theorem nextIdx_two : nextIdx 2 3 = some 0 := by
  norm_num [nextIdx, toInt32]

/-- A well-formed tuner state has its two vectors and index in explicit form. -/
theorem tunerOk_cases (s : PID) (h : tunerOk s) :
    ∃ d0 d1 d2 : ℚ, s.Kgains_ = [GainRef.Kp, GainRef.Ki, GainRef.Kd] ∧
      s.Kdeltas_ = [d0, d1, d2] ∧
      (s.twiddle_idx_ = 0 ∨ s.twiddle_idx_ = 1 ∨ s.twiddle_idx_ = 2) := by
  obtain ⟨hg, hl, h0, h3⟩ := h
  obtain ⟨d0, d1, d2, hd⟩ := List.length_eq_three.mp hl
  refine ⟨d0, d1, d2, hg, hd, ?_⟩
  omega

theorem vecAt_zero {α : Type} (a : α) (l : List α) : vecAt (a :: l) 0 = some a := by
  simp [vecAt]

theorem vecAt_one {α : Type} (a b : α) (l : List α) : vecAt (a :: b :: l) 1 = some b := by
  simp [vecAt]

theorem vecAt_two {α : Type} (a b c : α) (l : List α) :
    vecAt (a :: b :: c :: l) 2 = some c := by
  simp [vecAt]

theorem gainAt_eq (s : PID) (hg : s.Kgains_ = [GainRef.Kp, GainRef.Ki, GainRef.Kd]) :
    gainAt s 0 = s.Kp_ ∧ gainAt s 1 = s.Ki_ ∧ gainAt s 2 = s.Kd_ := by
  unfold gainAt
  rw [hg, vecAt_zero, vecAt_one, vecAt_two]
  exact ⟨rfl, rfl, rfl⟩

theorem stepAt_eq (s : PID) (d0 d1 d2 : ℚ) (hd : s.Kdeltas_ = [d0, d1, d2]) :
    stepAt s 0 = d0 ∧ stepAt s 1 = d1 ∧ stepAt s 2 = d2 := by
  unfold stepAt
  rw [hd, vecAt_zero, vecAt_one, vecAt_two]
  exact ⟨rfl, rfl, rfl⟩

theorem scaleDelta_eq (s : PID) (c d : ℚ) (h : vecAt s.Kdeltas_ s.twiddle_idx_ = some d) :
    scaleDelta s c
      = some { s with Kdeltas_ := s.Kdeltas_.set s.twiddle_idx_.toNat (d * c) } := by
  unfold scaleDelta
  rw [h]
  rfl

theorem addDeltaToGain_eq (s : PID) (g : GainRef) (d : ℚ)
    (hg : vecAt s.Kgains_ s.twiddle_idx_ = some g)
    (hd : vecAt s.Kdeltas_ s.twiddle_idx_ = some d) :
    addDeltaToGain s = some (g.set s (g.get s + d)) := by
  unfold addDeltaToGain
  rw [hg, hd]
  rfl

theorem advanceIdx_eq (s : PID) (i : Int) (g : GainRef) (d : ℚ)
    (hn : nextIdx s.twiddle_idx_ s.Kgains_.length = some i)
    (hg : vecAt s.Kgains_ i = some g) (hd : vecAt s.Kdeltas_ i = some d) :
    advanceIdx s
      = some (g.set { s with twiddle_idx_ := i } (g.get { s with twiddle_idx_ := i } + d)) := by
  unfold advanceIdx
  rw [hn]
  exact addDeltaToGain_eq { s with twiddle_idx_ := i } g d hg hd

/-- The increase phase with improvement, written out for each active index. -/
theorem increase_improved_fields (s : PID) (d0 d1 d2 : ℚ) (hs : s.twiddle_switch_ = false)
    (he : s.twiddle_error_ < s.twiddle_best_error_)
    (hg : s.Kgains_ = [GainRef.Kp, GainRef.Ki, GainRef.Kd])
    (hd : s.Kdeltas_ = [d0, d1, d2]) :
    (s.twiddle_idx_ = 0 → TwiddleParamUpdate s = some { s with
        twiddle_best_error_ := s.twiddle_error_
        Kdeltas_ := [d0 * 1.2, d1, d2]
        twiddle_idx_ := 1
        Ki_ := s.Ki_ + d1 }) ∧
    (s.twiddle_idx_ = 1 → TwiddleParamUpdate s = some { s with
        twiddle_best_error_ := s.twiddle_error_
        Kdeltas_ := [d0, d1 * 1.2, d2]
        twiddle_idx_ := 2
        Kd_ := s.Kd_ + d2 }) ∧
    (s.twiddle_idx_ = 2 → TwiddleParamUpdate s = some { s with
        twiddle_best_error_ := s.twiddle_error_
        Kdeltas_ := [d0, d1, d2 * 1.2]
        twiddle_idx_ := 0
        Kp_ := s.Kp_ + d0 }) := by
  refine ⟨fun hi => ?_, fun hi => ?_, fun hi => ?_⟩
  · unfold TwiddleParamUpdate
    rw [if_pos hs, if_pos he,
      scaleDelta_eq { s with twiddle_best_error_ := s.twiddle_error_ } 1.2 d0
        (by show vecAt s.Kdeltas_ s.twiddle_idx_ = some d0; rw [hd, hi]; exact vecAt_zero _ _)]
    show advanceIdx _ = _
    rw [advanceIdx_eq _ 1 GainRef.Ki d1
      (by show nextIdx s.twiddle_idx_ s.Kgains_.length = some 1; rw [hg, hi]; exact nextIdx_zero)
      (by show vecAt s.Kgains_ 1 = _; rw [hg]; exact vecAt_one _ _ _)
      (by show vecAt (s.Kdeltas_.set s.twiddle_idx_.toNat (d0 * 1.2)) 1 = _
          rw [hd, hi]; exact vecAt_one _ _ _)]
    simp only [GainRef.set, GainRef.get, hd, hi]
    rfl
  · unfold TwiddleParamUpdate
    rw [if_pos hs, if_pos he,
      scaleDelta_eq { s with twiddle_best_error_ := s.twiddle_error_ } 1.2 d1
        (by show vecAt s.Kdeltas_ s.twiddle_idx_ = some d1; rw [hd, hi]; exact vecAt_one _ _ _)]
    show advanceIdx _ = _
    rw [advanceIdx_eq _ 2 GainRef.Kd d2
      (by show nextIdx s.twiddle_idx_ s.Kgains_.length = some 2; rw [hg, hi]; exact nextIdx_one)
      (by show vecAt s.Kgains_ 2 = _; rw [hg]; exact vecAt_two _ _ _ _)
      (by show vecAt (s.Kdeltas_.set s.twiddle_idx_.toNat (d1 * 1.2)) 2 = _
          rw [hd, hi]; exact vecAt_two _ _ _ _)]
    simp only [GainRef.set, GainRef.get, hd, hi]
    rfl
  · unfold TwiddleParamUpdate
    rw [if_pos hs, if_pos he,
      scaleDelta_eq { s with twiddle_best_error_ := s.twiddle_error_ } 1.2 d2
        (by show vecAt s.Kdeltas_ s.twiddle_idx_ = some d2; rw [hd, hi]; exact vecAt_two _ _ _ _)]
    show advanceIdx _ = _
    rw [advanceIdx_eq _ 0 GainRef.Kp d0
      (by show nextIdx s.twiddle_idx_ s.Kgains_.length = some 0; rw [hg, hi]; exact nextIdx_two)
      (by show vecAt s.Kgains_ 0 = _; rw [hg]; exact vecAt_zero _ _)
      (by show vecAt (s.Kdeltas_.set s.twiddle_idx_.toNat (d2 * 1.2)) 0 = _
          rw [hd, hi]; exact vecAt_zero _ _)]
    simp only [GainRef.set, GainRef.get, hd, hi]
    rfl

/-- The increase phase without improvement, written out for each active
index. -/
theorem increase_not_improved_fields (s : PID) (d0 d1 d2 : ℚ)
    (hs : s.twiddle_switch_ = false)
    (he : ¬ s.twiddle_error_ < s.twiddle_best_error_)
    (hg : s.Kgains_ = [GainRef.Kp, GainRef.Ki, GainRef.Kd])
    (hd : s.Kdeltas_ = [d0, d1, d2]) :
    (s.twiddle_idx_ = 0 → TwiddleParamUpdate s = some { s with
        Kp_ := s.Kp_ - 2 * d0, twiddle_switch_ := true }) ∧
    (s.twiddle_idx_ = 1 → TwiddleParamUpdate s = some { s with
        Ki_ := s.Ki_ - 2 * d1, twiddle_switch_ := true }) ∧
    (s.twiddle_idx_ = 2 → TwiddleParamUpdate s = some { s with
        Kd_ := s.Kd_ - 2 * d2, twiddle_switch_ := true }) := by
  refine ⟨fun hi => ?_, fun hi => ?_, fun hi => ?_⟩
  · have hG : vecAt s.Kgains_ s.twiddle_idx_ = some GainRef.Kp := by
      rw [hg, hi]; exact vecAt_zero _ _
    have hD : vecAt s.Kdeltas_ s.twiddle_idx_ = some d0 := by
      rw [hd, hi]; exact vecAt_zero _ _
    unfold TwiddleParamUpdate
    rw [if_pos hs, if_neg he, hG, hD]
    rfl
  · have hG : vecAt s.Kgains_ s.twiddle_idx_ = some GainRef.Ki := by
      rw [hg, hi]; exact vecAt_one _ _ _
    have hD : vecAt s.Kdeltas_ s.twiddle_idx_ = some d1 := by
      rw [hd, hi]; exact vecAt_one _ _ _
    unfold TwiddleParamUpdate
    rw [if_pos hs, if_neg he, hG, hD]
    rfl
  · have hG : vecAt s.Kgains_ s.twiddle_idx_ = some GainRef.Kd := by
      rw [hg, hi]; exact vecAt_two _ _ _ _
    have hD : vecAt s.Kdeltas_ s.twiddle_idx_ = some d2 := by
      rw [hd, hi]; exact vecAt_two _ _ _ _
    unfold TwiddleParamUpdate
    rw [if_pos hs, if_neg he, hG, hD]
    rfl

/-- C9 (increase phase, improvement): with the phase flag false, active index
`k` and `episodeError < bestError`, `TwiddleParamUpdate` records the new best
error, multiplies step `k` by 1.2, moves the active index to `(k+1) mod 3`, adds
the step of the new index to the gain of the new index, keeps the phase flag
false and leaves the other gains (gain `k` included) and the other steps
unchanged. -/
theorem TwiddleParamUpdate_increase_improved (s : PID) (k : Int) (hw : tunerOk s)
    (hk : s.twiddle_idx_ = k) (hs : s.twiddle_switch_ = false)
    (he : s.twiddle_error_ < s.twiddle_best_error_) :
    ∃ t, TwiddleParamUpdate s = some t ∧ tunerOk t ∧
      t.twiddle_best_error_ = s.twiddle_error_ ∧
      stepAt t k = 1.2 * stepAt s k ∧
      t.twiddle_idx_ = (k + 1) % 3 ∧
      gainAt t ((k + 1) % 3) = gainAt s ((k + 1) % 3) + stepAt s ((k + 1) % 3) ∧
      t.twiddle_switch_ = false ∧
      gainAt t k = gainAt s k ∧
      (∀ j : Int, 0 ≤ j → j < 3 → j ≠ (k + 1) % 3 → gainAt t j = gainAt s j) ∧
      (∀ j : Int, 0 ≤ j → j < 3 → j ≠ k → stepAt t j = stepAt s j) := by
  obtain ⟨d0, d1, d2, hg, hd, hi⟩ := tunerOk_cases s hw
  subst hk
  have hf := increase_improved_fields s d0 d1 d2 hs he hg hd
  have G := gainAt_eq s hg
  have S := stepAt_eq s d0 d1 d2 hd
  rcases hi with hi | hi | hi
  · have G' := gainAt_eq { s with
        twiddle_best_error_ := s.twiddle_error_
        Kdeltas_ := [d0 * 1.2, d1, d2]
        twiddle_idx_ := 1
        Ki_ := s.Ki_ + d1 } hg
    have S' := stepAt_eq { s with
        twiddle_best_error_ := s.twiddle_error_
        Kdeltas_ := [d0 * 1.2, d1, d2]
        twiddle_idx_ := 1
        Ki_ := s.Ki_ + d1 } _ _ _ rfl
    have hn : ((0 : Int) + 1) % 3 = 1 := by norm_num
    rw [hi, hn]
    refine ⟨_, hf.1 hi, ⟨hg, rfl, ?_, ?_⟩, rfl, ?_, rfl, ?_, hs, ?_, ?_, ?_⟩
    · show (0 : Int) ≤ 1
      norm_num
    · show (1 : Int) < 3
      norm_num
    · rw [S'.1, S.1]
      ring
    · rw [G'.2.1, G.2.1, S.2.1]
    · rw [G'.1, G.1]
    · intro j h0 h3 hj
      interval_cases j
      · rw [G'.1, G.1]
      · exact absurd rfl hj
      · rw [G'.2.2, G.2.2]
    · intro j h0 h3 hj
      interval_cases j
      · exact absurd rfl hj
      · rw [S'.2.1, S.2.1]
      · rw [S'.2.2, S.2.2]
  · have G' := gainAt_eq { s with
        twiddle_best_error_ := s.twiddle_error_
        Kdeltas_ := [d0, d1 * 1.2, d2]
        twiddle_idx_ := 2
        Kd_ := s.Kd_ + d2 } hg
    have S' := stepAt_eq { s with
        twiddle_best_error_ := s.twiddle_error_
        Kdeltas_ := [d0, d1 * 1.2, d2]
        twiddle_idx_ := 2
        Kd_ := s.Kd_ + d2 } _ _ _ rfl
    have hn : ((1 : Int) + 1) % 3 = 2 := by norm_num
    rw [hi, hn]
    refine ⟨_, hf.2.1 hi, ⟨hg, rfl, ?_, ?_⟩, rfl, ?_, rfl, ?_, hs, ?_, ?_, ?_⟩
    · show (0 : Int) ≤ 2
      norm_num
    · show (2 : Int) < 3
      norm_num
    · rw [S'.2.1, S.2.1]
      ring
    · rw [G'.2.2, G.2.2, S.2.2]
    · rw [G'.2.1, G.2.1]
    · intro j h0 h3 hj
      interval_cases j
      · rw [G'.1, G.1]
      · rw [G'.2.1, G.2.1]
      · exact absurd rfl hj
    · intro j h0 h3 hj
      interval_cases j
      · rw [S'.1, S.1]
      · exact absurd rfl hj
      · rw [S'.2.2, S.2.2]
  · have G' := gainAt_eq { s with
        twiddle_best_error_ := s.twiddle_error_
        Kdeltas_ := [d0, d1, d2 * 1.2]
        twiddle_idx_ := 0
        Kp_ := s.Kp_ + d0 } hg
    have S' := stepAt_eq { s with
        twiddle_best_error_ := s.twiddle_error_
        Kdeltas_ := [d0, d1, d2 * 1.2]
        twiddle_idx_ := 0
        Kp_ := s.Kp_ + d0 } _ _ _ rfl
    have hn : ((2 : Int) + 1) % 3 = 0 := by norm_num
    rw [hi, hn]
    refine ⟨_, hf.2.2 hi, ⟨hg, rfl, ?_, ?_⟩, rfl, ?_, rfl, ?_, hs, ?_, ?_, ?_⟩
    · show (0 : Int) ≤ 0
      norm_num
    · show (0 : Int) < 3
      norm_num
    · rw [S'.2.2, S.2.2]
      ring
    · rw [G'.1, G.1, S.1]
    · rw [G'.2.2, G.2.2]
    · intro j h0 h3 hj
      interval_cases j
      · exact absurd rfl hj
      · rw [G'.2.1, G.2.1]
      · rw [G'.2.2, G.2.2]
    · intro j h0 h3 hj
      interval_cases j
      · rw [S'.1, S.1]
      · rw [S'.2.1, S.2.1]
      · exact absurd rfl hj

/-- Witness of C9, the scenario of the specification: steps all 1.0, best error
10, episode error 5, active index 0. The best error becomes 5, step 0 becomes
1.2, the active index 1, and gain 1 grows by its step 1.0. -/
theorem TwiddleParamUpdate_increase_improved_witness :
    ∃ t, TwiddleParamUpdate scenarioTuner = some t ∧ t.twiddle_best_error_ = 5 ∧
      stepAt t 0 = 1.2 ∧ t.twiddle_idx_ = 1 ∧ gainAt t 1 = gainAt scenarioTuner 1 + 1.0 ∧
      t.twiddle_switch_ = false := by
  obtain ⟨t, ht, _, hb, hstep, hidx, hgain, hsw, _⟩ :=
    TwiddleParamUpdate_increase_improved scenarioTuner 0
      ⟨rfl, rfl, le_refl _, by norm_num [scenarioTuner, Init, Reset]⟩ rfl rfl
      (by norm_num [scenarioTuner, Init, Reset])
  have S := stepAt_eq scenarioTuner 1.0 1.0 1.0 rfl
  have hn : ((0 : Int) + 1) % 3 = 1 := by norm_num
  rw [hn] at hidx hgain
  rw [S.1] at hstep
  rw [S.2.1] at hgain
  refine ⟨t, ht, hb, ?_, hidx, hgain, hsw⟩
  rw [hstep]
  norm_num

/-- C10 (increase phase, no improvement): with the phase flag false, active
index `k` and `episodeError ≥ bestError` (a tie included), `TwiddleParamUpdate`
subtracts `2 * step[k]` from gain `k`, sets the phase flag, and leaves the
active index, the best error, the step sizes and the other two gains
unchanged. -/
theorem TwiddleParamUpdate_increase_not_improved (s : PID) (k : Int) (hw : tunerOk s)
    (hk : s.twiddle_idx_ = k) (hs : s.twiddle_switch_ = false)
    (he : s.twiddle_best_error_ ≤ s.twiddle_error_) :
    ∃ t, TwiddleParamUpdate s = some t ∧
      gainAt t k = gainAt s k - 2 * stepAt s k ∧
      t.twiddle_switch_ = true ∧
      t.twiddle_idx_ = k ∧
      t.twiddle_best_error_ = s.twiddle_best_error_ ∧
      t.Kdeltas_ = s.Kdeltas_ ∧
      t.Kgains_ = s.Kgains_ ∧
      (∀ j : Int, 0 ≤ j → j < 3 → j ≠ k → gainAt t j = gainAt s j) := by
  obtain ⟨d0, d1, d2, hg, hd, hi⟩ := tunerOk_cases s hw
  subst hk
  have hf := increase_not_improved_fields s d0 d1 d2 hs (not_lt.mpr he) hg hd
  have G := gainAt_eq s hg
  have S := stepAt_eq s d0 d1 d2 hd
  rcases hi with hi | hi | hi
  · have G' := gainAt_eq { s with Kp_ := s.Kp_ - 2 * d0, twiddle_switch_ := true } hg
    rw [hi]
    refine ⟨_, hf.1 hi, ?_, rfl, hi, rfl, rfl, rfl, ?_⟩
    · rw [G'.1, G.1, S.1]
    · intro j h0 h3 hj
      interval_cases j
      · exact absurd rfl hj
      · rw [G'.2.1, G.2.1]
      · rw [G'.2.2, G.2.2]
  · have G' := gainAt_eq { s with Ki_ := s.Ki_ - 2 * d1, twiddle_switch_ := true } hg
    rw [hi]
    refine ⟨_, hf.2.1 hi, ?_, rfl, hi, rfl, rfl, rfl, ?_⟩
    · rw [G'.2.1, G.2.1, S.2.1]
    · intro j h0 h3 hj
      interval_cases j
      · rw [G'.1, G.1]
      · exact absurd rfl hj
      · rw [G'.2.2, G.2.2]
  · have G' := gainAt_eq { s with Kd_ := s.Kd_ - 2 * d2, twiddle_switch_ := true } hg
    rw [hi]
    refine ⟨_, hf.2.2 hi, ?_, rfl, hi, rfl, rfl, rfl, ?_⟩
    · rw [G'.2.2, G.2.2, S.2.2]
    · intro j h0 h3 hj
      interval_cases j
      · rw [G'.1, G.1]
      · rw [G'.2.1, G.2.1]
      · exact absurd rfl hj

/-- Witness of C10 at a tie: best error 5 and episode error 5, steps all 1.0,
active index 0. Gain 0 drops by 2.0 and the phase flag is set. -/
theorem TwiddleParamUpdate_increase_not_improved_witness :
    ∃ t, TwiddleParamUpdate tieTuner = some t ∧
      gainAt t 0 = gainAt tieTuner 0 - 2 * stepAt tieTuner 0 ∧
      t.twiddle_switch_ = true ∧ t.twiddle_idx_ = 0 ∧
      t.twiddle_best_error_ = tieTuner.twiddle_best_error_ ∧
      t.Kdeltas_ = tieTuner.Kdeltas_ ∧ t.Kgains_ = tieTuner.Kgains_ ∧
      (∀ j : Int, 0 ≤ j → j < 3 → j ≠ 0 → gainAt t j = gainAt tieTuner j) :=
  TwiddleParamUpdate_increase_not_improved tieTuner 0
    ⟨rfl, rfl, le_refl _, by norm_num [tieTuner, scenarioTuner, Init, Reset]⟩ rfl rfl
    (by norm_num [tieTuner, scenarioTuner, Init, Reset])

/-! ## Twiddle: the first call after `Init` -/

/-- C8 as amended: in the state produced by `Init`, where the best error is
`__DBL_MAX__`, for every episode error below `__DBL_MAX__` one call of
`TwiddleParamUpdate` sets the best error to the episode error, multiplies the
step of index 0, the active index before the call, by 1.2 and moves the active
index to 1. -/
theorem TwiddleParamUpdate_after_Init (s0 : PID)
    (Kp Ki Kd i_max d_max d_smooth error_rate_max e : ℚ) (he : e < DBL_MAX) :
    (Init s0 Kp Ki Kd i_max d_max d_smooth error_rate_max).twiddle_best_error_ = DBL_MAX ∧
      (Init s0 Kp Ki Kd i_max d_max d_smooth error_rate_max).twiddle_idx_ = 0 ∧
      ∃ t, TwiddleParamUpdate
            { Init s0 Kp Ki Kd i_max d_max d_smooth error_rate_max with twiddle_error_ := e }
          = some t ∧
        t.twiddle_best_error_ = e ∧
        stepAt t 0
          = 1.2 * stepAt (Init s0 Kp Ki Kd i_max d_max d_smooth error_rate_max) 0 ∧
        t.twiddle_idx_ = (0 + 1) % 3 ∧ t.twiddle_idx_ = 1 := by
  have hf := (increase_improved_fields
    { Init s0 Kp Ki Kd i_max d_max d_smooth error_rate_max with twiddle_error_ := e }
    0.05 0.0005 1.0 rfl he rfl rfl).1 rfl
  have S := stepAt_eq (Init s0 Kp Ki Kd i_max d_max d_smooth error_rate_max)
    0.05 0.0005 1.0 rfl
  refine ⟨rfl, rfl, _, hf, rfl, ?_, rfl, rfl⟩
  rw [S.1, (stepAt_eq _ _ _ _ rfl).1]
  ring

/-- Witness of C8 as amended: episode error 5. -/
theorem TwiddleParamUpdate_after_Init_witness :
    (5 : ℚ) < DBL_MAX ∧
      ∃ t, TwiddleParamUpdate { Init blank 0 0 0 0 0 1 0 with twiddle_error_ := 5 } = some t ∧
        t.twiddle_best_error_ = 5 ∧
        stepAt t 0 = 1.2 * stepAt (Init blank 0 0 0 0 0 1 0) 0 ∧
        t.twiddle_idx_ = (0 + 1) % 3 ∧ t.twiddle_idx_ = 1 :=
  ⟨by norm_num [DBL_MAX],
    (TwiddleParamUpdate_after_Init blank 0 0 0 0 0 1 0 5 (by norm_num [DBL_MAX])).2.2⟩

/-- C8 as stated fails at the finite episode error `__DBL_MAX__`: the first
call after `Init` then takes the no-improvement branch, so the active index
stays 0 and step 0 stays 0.05. -/
theorem TwiddleParamUpdate_after_Init_at_DBL_MAX :
    (∃ t, TwiddleParamUpdate { Init blank 0 0 0 0 0 1 0 with twiddle_error_ := DBL_MAX }
          = some t ∧ t.twiddle_idx_ = 0 ∧ stepAt t 0 = 0.05 ∧ t.twiddle_switch_ = true) ∧
      ¬ ∃ t, TwiddleParamUpdate { Init blank 0 0 0 0 0 1 0 with twiddle_error_ := DBL_MAX }
          = some t ∧
        t.twiddle_best_error_ = DBL_MAX ∧
        stepAt t 0 = 1.2 * stepAt (Init blank 0 0 0 0 0 1 0) 0 ∧
        t.twiddle_idx_ = 1 := by
  have hf := (increase_not_improved_fields
    { Init blank 0 0 0 0 0 1 0 with twiddle_error_ := DBL_MAX }
    0.05 0.0005 1.0 rfl (lt_irrefl _) rfl rfl).1 rfl
  constructor
  · exact ⟨_, hf, rfl, (stepAt_eq _ _ _ _ rfl).1, rfl⟩
  · rintro ⟨t, ht, _, _, hidx⟩
    rw [hf] at ht
    have h := congrArg (Option.map fun u => u.twiddle_idx_) ht
    simp only [Option.map_some'] at h
    rw [hidx] at h
    exact absurd h (by decide)

/-- The decrease phase with improvement, written out for each active index. -/
theorem decrease_improved_fields (s : PID) (d0 d1 d2 : ℚ) (hs : s.twiddle_switch_ = true)
    (he : s.twiddle_error_ < s.twiddle_best_error_)
    (hg : s.Kgains_ = [GainRef.Kp, GainRef.Ki, GainRef.Kd])
    (hd : s.Kdeltas_ = [d0, d1, d2]) :
    (s.twiddle_idx_ = 0 → TwiddleParamUpdate s = some { s with
        twiddle_best_error_ := s.twiddle_error_
        Kdeltas_ := [d0 * 1.2, d1, d2]
        twiddle_idx_ := 1
        Ki_ := s.Ki_ + d1
        twiddle_switch_ := false }) ∧
    (s.twiddle_idx_ = 1 → TwiddleParamUpdate s = some { s with
        twiddle_best_error_ := s.twiddle_error_
        Kdeltas_ := [d0, d1 * 1.2, d2]
        twiddle_idx_ := 2
        Kd_ := s.Kd_ + d2
        twiddle_switch_ := false }) ∧
    (s.twiddle_idx_ = 2 → TwiddleParamUpdate s = some { s with
        twiddle_best_error_ := s.twiddle_error_
        Kdeltas_ := [d0, d1, d2 * 1.2]
        twiddle_idx_ := 0
        Kp_ := s.Kp_ + d0
        twiddle_switch_ := false }) := by
  have hs' : ¬ s.twiddle_switch_ = false := by rw [hs]; decide
  refine ⟨fun hi => ?_, fun hi => ?_, fun hi => ?_⟩
  · unfold TwiddleParamUpdate
    rw [if_neg hs', if_pos he,
      scaleDelta_eq { s with twiddle_best_error_ := s.twiddle_error_ } 1.2 d0
        (by show vecAt s.Kdeltas_ s.twiddle_idx_ = some d0; rw [hd, hi]; exact vecAt_zero _ _)]
    simp only [Option.bind_eq_bind, Option.some_bind]
    rw [advanceIdx_eq _ 1 GainRef.Ki d1
      (by show nextIdx s.twiddle_idx_ s.Kgains_.length = some 1; rw [hg, hi]; exact nextIdx_zero)
      (by show vecAt s.Kgains_ 1 = _; rw [hg]; exact vecAt_one _ _ _)
      (by show vecAt (s.Kdeltas_.set s.twiddle_idx_.toNat (d0 * 1.2)) 1 = _
          rw [hd, hi]; exact vecAt_one _ _ _)]
    simp only [Option.some_bind, GainRef.set, GainRef.get, hd, hi]
    rfl
  · unfold TwiddleParamUpdate
    rw [if_neg hs', if_pos he,
      scaleDelta_eq { s with twiddle_best_error_ := s.twiddle_error_ } 1.2 d1
        (by show vecAt s.Kdeltas_ s.twiddle_idx_ = some d1; rw [hd, hi]; exact vecAt_one _ _ _)]
    simp only [Option.bind_eq_bind, Option.some_bind]
    rw [advanceIdx_eq _ 2 GainRef.Kd d2
      (by show nextIdx s.twiddle_idx_ s.Kgains_.length = some 2; rw [hg, hi]; exact nextIdx_one)
      (by show vecAt s.Kgains_ 2 = _; rw [hg]; exact vecAt_two _ _ _ _)
      (by show vecAt (s.Kdeltas_.set s.twiddle_idx_.toNat (d1 * 1.2)) 2 = _
          rw [hd, hi]; exact vecAt_two _ _ _ _)]
    simp only [Option.some_bind, GainRef.set, GainRef.get, hd, hi]
    rfl
  · unfold TwiddleParamUpdate
    rw [if_neg hs', if_pos he,
      scaleDelta_eq { s with twiddle_best_error_ := s.twiddle_error_ } 1.2 d2
        (by show vecAt s.Kdeltas_ s.twiddle_idx_ = some d2; rw [hd, hi]; exact vecAt_two _ _ _ _)]
    simp only [Option.bind_eq_bind, Option.some_bind]
    rw [advanceIdx_eq _ 0 GainRef.Kp d0
      (by show nextIdx s.twiddle_idx_ s.Kgains_.length = some 0; rw [hg, hi]; exact nextIdx_two)
      (by show vecAt s.Kgains_ 0 = _; rw [hg]; exact vecAt_zero _ _)
      (by show vecAt (s.Kdeltas_.set s.twiddle_idx_.toNat (d2 * 1.2)) 0 = _
          rw [hd, hi]; exact vecAt_zero _ _)]
    simp only [Option.some_bind, GainRef.set, GainRef.get, hd, hi]
    rfl

/-- The decrease phase without improvement, written out for each active
index. -/
theorem decrease_not_improved_fields (s : PID) (d0 d1 d2 : ℚ)
    (hs : s.twiddle_switch_ = true)
    (he : ¬ s.twiddle_error_ < s.twiddle_best_error_)
    (hg : s.Kgains_ = [GainRef.Kp, GainRef.Ki, GainRef.Kd])
    (hd : s.Kdeltas_ = [d0, d1, d2]) :
    (s.twiddle_idx_ = 0 → TwiddleParamUpdate s = some { s with
        Kp_ := s.Kp_ + d0
        Kdeltas_ := [d0 * 0.8, d1, d2]
        twiddle_idx_ := 1
        Ki_ := s.Ki_ + d1
        twiddle_switch_ := false }) ∧
    (s.twiddle_idx_ = 1 → TwiddleParamUpdate s = some { s with
        Ki_ := s.Ki_ + d1
        Kdeltas_ := [d0, d1 * 0.8, d2]
        twiddle_idx_ := 2
        Kd_ := s.Kd_ + d2
        twiddle_switch_ := false }) ∧
    (s.twiddle_idx_ = 2 → TwiddleParamUpdate s = some { s with
        Kd_ := s.Kd_ + d2
        Kdeltas_ := [d0, d1, d2 * 0.8]
        twiddle_idx_ := 0
        Kp_ := s.Kp_ + d0
        twiddle_switch_ := false }) := by
  have hs' : ¬ s.twiddle_switch_ = false := by rw [hs]; decide
  refine ⟨fun hi => ?_, fun hi => ?_, fun hi => ?_⟩
  · have hG : vecAt s.Kgains_ s.twiddle_idx_ = some GainRef.Kp := by
      rw [hg, hi]; exact vecAt_zero _ _
    have hD : vecAt s.Kdeltas_ s.twiddle_idx_ = some d0 := by
      rw [hd, hi]; exact vecAt_zero _ _
    unfold TwiddleParamUpdate
    rw [if_neg hs', if_neg he, addDeltaToGain_eq s GainRef.Kp d0 hG hD]
    simp only [Option.bind_eq_bind, Option.some_bind]
    rw [scaleDelta_eq (GainRef.Kp.set s (GainRef.Kp.get s + d0)) 0.8 d0 hD]
    simp only [Option.some_bind]
    rw [advanceIdx_eq _ 1 GainRef.Ki d1
      (by show nextIdx s.twiddle_idx_ s.Kgains_.length = some 1; rw [hg, hi]; exact nextIdx_zero)
      (by show vecAt s.Kgains_ 1 = _; rw [hg]; exact vecAt_one _ _ _)
      (by show vecAt (s.Kdeltas_.set s.twiddle_idx_.toNat (d0 * 0.8)) 1 = _
          rw [hd, hi]; exact vecAt_one _ _ _)]
    simp only [Option.some_bind, GainRef.set, GainRef.get, hd, hi]
    rfl
  · have hG : vecAt s.Kgains_ s.twiddle_idx_ = some GainRef.Ki := by
      rw [hg, hi]; exact vecAt_one _ _ _
    have hD : vecAt s.Kdeltas_ s.twiddle_idx_ = some d1 := by
      rw [hd, hi]; exact vecAt_one _ _ _
    unfold TwiddleParamUpdate
    rw [if_neg hs', if_neg he, addDeltaToGain_eq s GainRef.Ki d1 hG hD]
    simp only [Option.bind_eq_bind, Option.some_bind]
    rw [scaleDelta_eq (GainRef.Ki.set s (GainRef.Ki.get s + d1)) 0.8 d1 hD]
    simp only [Option.some_bind]
    rw [advanceIdx_eq _ 2 GainRef.Kd d2
      (by show nextIdx s.twiddle_idx_ s.Kgains_.length = some 2; rw [hg, hi]; exact nextIdx_one)
      (by show vecAt s.Kgains_ 2 = _; rw [hg]; exact vecAt_two _ _ _ _)
      (by show vecAt (s.Kdeltas_.set s.twiddle_idx_.toNat (d1 * 0.8)) 2 = _
          rw [hd, hi]; exact vecAt_two _ _ _ _)]
    simp only [Option.some_bind, GainRef.set, GainRef.get, hd, hi]
    rfl
  · have hG : vecAt s.Kgains_ s.twiddle_idx_ = some GainRef.Kd := by
      rw [hg, hi]; exact vecAt_two _ _ _ _
    have hD : vecAt s.Kdeltas_ s.twiddle_idx_ = some d2 := by
      rw [hd, hi]; exact vecAt_two _ _ _ _
    unfold TwiddleParamUpdate
    rw [if_neg hs', if_neg he, addDeltaToGain_eq s GainRef.Kd d2 hG hD]
    simp only [Option.bind_eq_bind, Option.some_bind]
    rw [scaleDelta_eq (GainRef.Kd.set s (GainRef.Kd.get s + d2)) 0.8 d2 hD]
    simp only [Option.some_bind]
    rw [advanceIdx_eq _ 0 GainRef.Kp d0
      (by show nextIdx s.twiddle_idx_ s.Kgains_.length = some 0; rw [hg, hi]; exact nextIdx_two)
      (by show vecAt s.Kgains_ 0 = _; rw [hg]; exact vecAt_zero _ _)
      (by show vecAt (s.Kdeltas_.set s.twiddle_idx_.toNat (d2 * 0.8)) 0 = _
          rw [hd, hi]; exact vecAt_zero _ _)]
    simp only [Option.some_bind, GainRef.set, GainRef.get, hd, hi]
    rfl

/-! ## Twiddle: the decrease phase -/

/-- C11 (decrease phase): with the phase flag true and active index `k`,
`TwiddleParamUpdate` on `episodeError < bestError` records the new best error,
multiplies step `k` by 1.2 and leaves gain `k` unchanged; otherwise it adds the
old step `k` to gain `k`, multiplies step `k` by 0.8 and leaves the best error
unchanged. In both cases the active index becomes `(k+1) mod 3`, the gain of the
new index grows by the step of the new index, and the phase flag is false. -/
theorem TwiddleParamUpdate_decrease (s : PID) (k : Int) (hw : tunerOk s)
    (hk : s.twiddle_idx_ = k) (hs : s.twiddle_switch_ = true) :
    ∃ t, TwiddleParamUpdate s = some t ∧
      (s.twiddle_error_ < s.twiddle_best_error_ →
        t.twiddle_best_error_ = s.twiddle_error_ ∧ stepAt t k = 1.2 * stepAt s k ∧
          gainAt t k = gainAt s k) ∧
      (¬ s.twiddle_error_ < s.twiddle_best_error_ →
        gainAt t k = gainAt s k + stepAt s k ∧ stepAt t k = 0.8 * stepAt s k ∧
          t.twiddle_best_error_ = s.twiddle_best_error_) ∧
      t.twiddle_idx_ = (k + 1) % 3 ∧
      gainAt t ((k + 1) % 3) = gainAt s ((k + 1) % 3) + stepAt s ((k + 1) % 3) ∧
      t.twiddle_switch_ = false := by
  obtain ⟨d0, d1, d2, hg, hd, hi⟩ := tunerOk_cases s hw
  subst hk
  have G := gainAt_eq s hg
  have S := stepAt_eq s d0 d1 d2 hd
  by_cases he : s.twiddle_error_ < s.twiddle_best_error_
  · have hf := decrease_improved_fields s d0 d1 d2 hs he hg hd
    rcases hi with hi | hi | hi
    · have G' := gainAt_eq { s with
          twiddle_best_error_ := s.twiddle_error_
          Kdeltas_ := [d0 * 1.2, d1, d2]
          twiddle_idx_ := 1
          Ki_ := s.Ki_ + d1
          twiddle_switch_ := false } hg
      have S' := stepAt_eq { s with
          twiddle_best_error_ := s.twiddle_error_
          Kdeltas_ := [d0 * 1.2, d1, d2]
          twiddle_idx_ := 1
          Ki_ := s.Ki_ + d1
          twiddle_switch_ := false } _ _ _ rfl
      have hn : ((0 : Int) + 1) % 3 = 1 := by norm_num
      rw [hi, hn]
      refine ⟨_, hf.1 hi, fun _ => ⟨rfl, ?_, ?_⟩, fun h => absurd he h, rfl, ?_, rfl⟩
      · rw [S'.1, S.1]
        ring
      · rw [G'.1, G.1]
      · rw [G'.2.1, G.2.1, S.2.1]
    · have G' := gainAt_eq { s with
          twiddle_best_error_ := s.twiddle_error_
          Kdeltas_ := [d0, d1 * 1.2, d2]
          twiddle_idx_ := 2
          Kd_ := s.Kd_ + d2
          twiddle_switch_ := false } hg
      have S' := stepAt_eq { s with
          twiddle_best_error_ := s.twiddle_error_
          Kdeltas_ := [d0, d1 * 1.2, d2]
          twiddle_idx_ := 2
          Kd_ := s.Kd_ + d2
          twiddle_switch_ := false } _ _ _ rfl
      have hn : ((1 : Int) + 1) % 3 = 2 := by norm_num
      rw [hi, hn]
      refine ⟨_, hf.2.1 hi, fun _ => ⟨rfl, ?_, ?_⟩, fun h => absurd he h, rfl, ?_, rfl⟩
      · rw [S'.2.1, S.2.1]
        ring
      · rw [G'.2.1, G.2.1]
      · rw [G'.2.2, G.2.2, S.2.2]
    · have G' := gainAt_eq { s with
          twiddle_best_error_ := s.twiddle_error_
          Kdeltas_ := [d0, d1, d2 * 1.2]
          twiddle_idx_ := 0
          Kp_ := s.Kp_ + d0
          twiddle_switch_ := false } hg
      have S' := stepAt_eq { s with
          twiddle_best_error_ := s.twiddle_error_
          Kdeltas_ := [d0, d1, d2 * 1.2]
          twiddle_idx_ := 0
          Kp_ := s.Kp_ + d0
          twiddle_switch_ := false } _ _ _ rfl
      have hn : ((2 : Int) + 1) % 3 = 0 := by norm_num
      rw [hi, hn]
      refine ⟨_, hf.2.2 hi, fun _ => ⟨rfl, ?_, ?_⟩, fun h => absurd he h, rfl, ?_, rfl⟩
      · rw [S'.2.2, S.2.2]
        ring
      · rw [G'.2.2, G.2.2]
      · rw [G'.1, G.1, S.1]
  · have hf := decrease_not_improved_fields s d0 d1 d2 hs he hg hd
    rcases hi with hi | hi | hi
    · have G' := gainAt_eq { s with
          Kp_ := s.Kp_ + d0
          Kdeltas_ := [d0 * 0.8, d1, d2]
          twiddle_idx_ := 1
          Ki_ := s.Ki_ + d1
          twiddle_switch_ := false } hg
      have S' := stepAt_eq { s with
          Kp_ := s.Kp_ + d0
          Kdeltas_ := [d0 * 0.8, d1, d2]
          twiddle_idx_ := 1
          Ki_ := s.Ki_ + d1
          twiddle_switch_ := false } _ _ _ rfl
      have hn : ((0 : Int) + 1) % 3 = 1 := by norm_num
      rw [hi, hn]
      refine ⟨_, hf.1 hi, fun h => absurd h he, fun _ => ⟨?_, ?_, rfl⟩, rfl, ?_, rfl⟩
      · rw [G'.1, G.1, S.1]
      · rw [S'.1, S.1]
        ring
      · rw [G'.2.1, G.2.1, S.2.1]
    · have G' := gainAt_eq { s with
          Ki_ := s.Ki_ + d1
          Kdeltas_ := [d0, d1 * 0.8, d2]
          twiddle_idx_ := 2
          Kd_ := s.Kd_ + d2
          twiddle_switch_ := false } hg
      have S' := stepAt_eq { s with
          Ki_ := s.Ki_ + d1
          Kdeltas_ := [d0, d1 * 0.8, d2]
          twiddle_idx_ := 2
          Kd_ := s.Kd_ + d2
          twiddle_switch_ := false } _ _ _ rfl
      have hn : ((1 : Int) + 1) % 3 = 2 := by norm_num
      rw [hi, hn]
      refine ⟨_, hf.2.1 hi, fun h => absurd h he, fun _ => ⟨?_, ?_, rfl⟩, rfl, ?_, rfl⟩
      · rw [G'.2.1, G.2.1, S.2.1]
      · rw [S'.2.1, S.2.1]
        ring
      · rw [G'.2.2, G.2.2, S.2.2]
    · have G' := gainAt_eq { s with
          Kd_ := s.Kd_ + d2
          Kdeltas_ := [d0, d1, d2 * 0.8]
          twiddle_idx_ := 0
          Kp_ := s.Kp_ + d0
          twiddle_switch_ := false } hg
      have S' := stepAt_eq { s with
          Kd_ := s.Kd_ + d2
          Kdeltas_ := [d0, d1, d2 * 0.8]
          twiddle_idx_ := 0
          Kp_ := s.Kp_ + d0
          twiddle_switch_ := false } _ _ _ rfl
      have hn : ((2 : Int) + 1) % 3 = 0 := by norm_num
      rw [hi, hn]
      refine ⟨_, hf.2.2 hi, fun h => absurd h he, fun _ => ⟨?_, ?_, rfl⟩, rfl, ?_, rfl⟩
      · rw [G'.2.2, G.2.2, S.2.2]
      · rw [S'.2.2, S.2.2]
        ring
      · rw [G'.1, G.1, S.1]

/-- Witness of C11 at index 0 with steps all 1.0 and gains all 1: with best error
10 and episode error 5 (improved) and with best error 5 and episode error 5 (not
improved). -/
theorem TwiddleParamUpdate_decrease_witness :
    (∃ t, TwiddleParamUpdate decreaseTuner = some t ∧
        t.twiddle_best_error_ = 5 ∧ stepAt t 0 = 1.2 ∧ gainAt t 0 = 1 ∧
        t.twiddle_idx_ = 1 ∧ gainAt t 1 = 2 ∧ t.twiddle_switch_ = false) ∧
      ∃ t, TwiddleParamUpdate decreaseTieTuner = some t ∧
        gainAt t 0 = 2 ∧ stepAt t 0 = 0.8 ∧ t.twiddle_best_error_ = 5 ∧
        t.twiddle_idx_ = 1 ∧ gainAt t 1 = 2 ∧ t.twiddle_switch_ = false := by
  have hn : ((0 : Int) + 1) % 3 = 1 := by norm_num
  constructor
  · obtain ⟨t, ht, himp, _, hidx, hgain, hsw⟩ :=
      TwiddleParamUpdate_decrease decreaseTuner 0
        ⟨rfl, rfl, le_refl _, by norm_num [decreaseTuner, scenarioTuner, Init, Reset]⟩ rfl rfl
    obtain ⟨hb, hstep, hg0⟩ :=
      himp (by norm_num [decreaseTuner, scenarioTuner, Init, Reset])
    have G := gainAt_eq decreaseTuner rfl
    have S := stepAt_eq decreaseTuner 1.0 1.0 1.0 rfl
    rw [hn] at hidx hgain
    rw [S.1] at hstep
    rw [G.1] at hg0
    rw [G.2.1, S.2.1] at hgain
    refine ⟨t, ht, hb, ?_, ?_, hidx, ?_, hsw⟩
    · rw [hstep]; norm_num
    · rw [hg0]; rfl
    · rw [hgain]; norm_num [decreaseTuner, scenarioTuner, Init, Reset]
  · obtain ⟨t, ht, _, hnot, hidx, hgain, hsw⟩ :=
      TwiddleParamUpdate_decrease decreaseTieTuner 0
        ⟨rfl, rfl, le_refl _,
          by norm_num [decreaseTieTuner, tieTuner, scenarioTuner, Init, Reset]⟩ rfl rfl
    obtain ⟨hg0, hstep, hb⟩ :=
      hnot (by norm_num [decreaseTieTuner, tieTuner, scenarioTuner, Init, Reset])
    have G := gainAt_eq decreaseTieTuner rfl
    have S := stepAt_eq decreaseTieTuner 1.0 1.0 1.0 rfl
    rw [hn] at hidx hgain
    rw [S.1] at hstep
    rw [G.1, S.1] at hg0
    rw [G.2.1, S.2.1] at hgain
    refine ⟨t, ht, ?_, ?_, hb, hidx, ?_, hsw⟩
    · rw [hg0]; norm_num [decreaseTieTuner, tieTuner, scenarioTuner, Init, Reset]
    · rw [hstep]; norm_num
    · rw [hgain]; norm_num [decreaseTieTuner, tieTuner, scenarioTuner, Init, Reset]

/-! ## Episode error -/

/-- C13 (fails on the code): the `abs` that `TwiddleErrorUpdate` calls is `int
abs(int)`, which truncates its argument. `TwiddleErrorUpdate(0.5, 0.5)` leaves
the episode error unchanged, where `|steer| + |cte|` is 1, and
`TwiddleErrorUpdate(-1.5, 2.5)` adds 3, where `|steer| + |cte|` is 4. -/
theorem TwiddleErrorUpdate_truncates (s : PID) :
    (TwiddleErrorUpdate absInt s 0.5 0.5).twiddle_error_ = s.twiddle_error_ ∧
      (TwiddleErrorUpdate absInt s 0.5 0.5).twiddle_error_
        ≠ s.twiddle_error_ + (|(0.5 : ℚ)| + |(0.5 : ℚ)|) ∧
      (TwiddleErrorUpdate absInt s (-1.5) 2.5).twiddle_error_ = s.twiddle_error_ + 3 ∧
      (TwiddleErrorUpdate absInt s (-1.5) 2.5).twiddle_error_
        ≠ s.twiddle_error_ + (|(2.5 : ℚ)| + |(-1.5 : ℚ)|) := by
  have h1 : absInt 0.5 = 0 := by
    unfold absInt
    rw [abs_of_pos (by norm_num : (0 : ℚ) < 0.5)]
    have : ⌊(0.5 : ℚ)⌋ = 0 := by rw [Int.floor_eq_iff]; norm_num
    rw [this]; norm_num
  have h2 : absInt (-1.5) = 1 := by
    unfold absInt
    rw [abs_of_neg (by norm_num : (-1.5 : ℚ) < 0)]
    have : ⌊-(-1.5 : ℚ)⌋ = 1 := by rw [Int.floor_eq_iff]; norm_num
    rw [this]; norm_num
  have h3 : absInt 2.5 = 2 := by
    unfold absInt
    rw [abs_of_pos (by norm_num : (0 : ℚ) < 2.5)]
    have : ⌊(2.5 : ℚ)⌋ = 2 := by rw [Int.floor_eq_iff]; norm_num
    rw [this]; norm_num
  have e1 : (TwiddleErrorUpdate absInt s 0.5 0.5).twiddle_error_ = s.twiddle_error_ := by
    show s.twiddle_error_ + absInt 0.5 + absInt 0.5 = _
    rw [h1]; ring
  have e2 : (TwiddleErrorUpdate absInt s (-1.5) 2.5).twiddle_error_
      = s.twiddle_error_ + 3 := by
    show s.twiddle_error_ + absInt 2.5 + absInt (-1.5) = _
    rw [h2, h3]; ring
  refine ⟨e1, ?_, e2, ?_⟩
  · rw [e1, abs_of_pos (by norm_num : (0 : ℚ) < 0.5)]
    intro h
    linarith
  · rw [e2, abs_of_pos (by norm_num : (0 : ℚ) < 2.5),
      abs_of_neg (by norm_num : (-1.5 : ℚ) < 0)]
    intro h
    linarith

/-! ## Derivative term -/

theorem UpdateError_d_recomputed (s : PID) (cte : ℚ) (hc : cte ≠ s.prev_cte_) :
    (UpdateError s cte).d_error_ = updateD s cte ∧
      (UpdateError s cte).prev_d_error_ = updateD s cte := by
  unfold UpdateError
  dsimp only
  rw [if_pos hc]
  exact ⟨rfl, rfl⟩

/-- C17 (derivative update): with smoothing factor `s ≠ 0` and `cte` different
from the stored previous cte, `UpdateError(cte)` sets the derivative term to
`prev_filtered * (s - 1) / s + (-Kd * (cte - prev_cte)) / s` limited by
`MinMaxLimit` to the derivative bound and stores the same value as the previous
filtered derivative; for `s = 1` this is `-Kd * (cte - prev_cte)` limited to the
derivative bound, whatever the previous filtered derivative. -/
theorem UpdateError_derivative (s : PID) (cte : ℚ) (_hs : s.d_smooth_ ≠ 0)
    (hc : cte ≠ s.prev_cte_) :
    (UpdateError s cte).d_error_
        = MinMaxLimit (s.prev_d_error_ * (s.d_smooth_ - 1) / s.d_smooth_
            + (-s.Kd_ * (cte - s.prev_cte_)) / s.d_smooth_) s.d_max_ ∧
      (UpdateError s cte).prev_d_error_ = (UpdateError s cte).d_error_ ∧
      (s.d_smooth_ = 1 →
        (UpdateError s cte).d_error_
          = MinMaxLimit (-s.Kd_ * (cte - s.prev_cte_)) s.d_max_) := by
  have h := UpdateError_d_recomputed s cte hc
  refine ⟨h.1, h.2.trans h.1.symm, fun h1 => ?_⟩
  rw [h.1]
  unfold updateD
  rw [h1]
  congr 1
  ring

/-- Witness of C17: `Kd = 3`, previous cte 1, new cte 0, previous filtered
derivative -0.2, bound 0.2. With smoothing 3 the derivative term is
`-0.2 * 2 / 3 + 3 / 3` limited to 0.2; with smoothing 1 it is 3 limited to
0.2. Both are 0.2. -/
theorem UpdateError_derivative_witness :
    (UpdateError afterOneTick 0).d_error_ = 0.2 ∧
      (UpdateError afterOneTick 0).prev_d_error_ = 0.2 ∧
      (UpdateError { afterOneTick with d_smooth_ := 1 } 0).d_error_ = 0.2 := by
  have hs : afterOneTick.d_smooth_ ≠ 0 := by
    norm_num [afterOneTick, UpdateError, Init, Reset, blank]
  have hc : (0 : ℚ) ≠ afterOneTick.prev_cte_ := by
    show (0 : ℚ) ≠ 1
    norm_num
  have h := UpdateError_derivative afterOneTick 0 hs hc
  have h' := (UpdateError_derivative { afterOneTick with d_smooth_ := 1 } 0
    (by norm_num) hc).2.2 rfl
  have hv : (UpdateError afterOneTick 0).d_error_ = 0.2 := by
    rw [h.1]
    norm_num [afterOneTick, UpdateError, Init, Reset, updateI, updateD, MinMaxLimit, blank]
  refine ⟨hv, h.2.1.trans hv, ?_⟩
  rw [h']
  norm_num [afterOneTick, UpdateError, Init, Reset, blank, MinMaxLimit]

/-! ## The scenario of the specification: `Kp = 1`, `Ki = 0`, `Kd = 0` -/

theorem DBL_MAX_large : (4 : ℚ) ≤ DBL_MAX := by
  norm_num [DBL_MAX]

theorem MinMaxLimit_zero_DBL_MAX : MinMaxLimit 0 DBL_MAX = 0 := by
  have h := DBL_MAX_large
  unfold MinMaxLimit
  rw [if_neg (by linarith), if_neg (by linarith)]

/-- Members of the object that `UpdateError` leaves unchanged. -/
theorem UpdateError_frame (s : PID) (cte : ℚ) :
    (UpdateError s cte).Kp_ = s.Kp_ ∧ (UpdateError s cte).Ki_ = s.Ki_ ∧
      (UpdateError s cte).Kd_ = s.Kd_ ∧ (UpdateError s cte).i_max_ = s.i_max_ ∧
      (UpdateError s cte).d_max_ = s.d_max_ ∧
      (UpdateError s cte).d_smooth_ = s.d_smooth_ ∧
      (UpdateError s cte).i_cut_ = s.i_cut_ ∧
      (UpdateError s cte).error_rate_max_ = s.error_rate_max_ ∧
      (UpdateError s cte).prev_total_error_ = s.prev_total_error_ ∧
      (UpdateError s cte).Kgains_ = s.Kgains_ ∧ (UpdateError s cte).Kdeltas_ = s.Kdeltas_ ∧
      (UpdateError s cte).twiddle_idx_ = s.twiddle_idx_ ∧
      (UpdateError s cte).twiddle_best_error_ = s.twiddle_best_error_ ∧
      (UpdateError s cte).twiddle_error_ = s.twiddle_error_ ∧
      (UpdateError s cte).twiddle_switch_ = s.twiddle_switch_ := by
  unfold UpdateError
  dsimp only
  split_ifs <;> exact ⟨rfl, rfl, rfl, rfl, rfl, rfl, rfl, rfl, rfl, rfl, rfl, rfl, rfl, rfl, rfl⟩

/-- One `UpdateError(2)` of the scenario controller. -/
theorem UpdateError_scenario (s : PID) (hKp : s.Kp_ = 1) (hKi : s.Ki_ = 0) (hKd : s.Kd_ = 0)
    (him : s.i_max_ = DBL_MAX) (hdm : s.d_max_ = DBL_MAX) (hsm : s.d_smooth_ = 1)
    (hcut : s.i_cut_ = false) (hi : s.i_error_ = 0) (hd : s.d_error_ = 0)
    (hpd : s.prev_d_error_ = 0) :
    (UpdateError s 2).p_error_ = -2 ∧ (UpdateError s 2).i_error_ = 0 ∧
      (UpdateError s 2).d_error_ = 0 ∧ (UpdateError s 2).prev_d_error_ = 0 := by
  have hI : updateI { s with p_error_ := -s.Kp_ * 2 } 2 = 0 := by
    unfold updateI
    rw [if_pos hcut]
    show MinMaxLimit (s.i_error_ + -s.Ki_ * 2) s.i_max_ = 0
    rw [hi, hKi, him]
    norm_num
    exact MinMaxLimit_zero_DBL_MAX
  have hD : ∀ u : PID, u.prev_d_error_ = 0 → u.Kd_ = 0 → u.d_smooth_ = 1 →
      u.d_max_ = DBL_MAX → updateD u 2 = 0 := by
    intro u h1 h2 h3 h4
    unfold updateD
    rw [h1, h2, h3, h4]
    norm_num
    exact MinMaxLimit_zero_DBL_MAX
  unfold UpdateError
  dsimp only
  split_ifs with hc
  · refine ⟨?_, hI, hD _ hpd hKd hsm hdm, hD _ hpd hKd hsm hdm⟩
    show -s.Kp_ * 2 = -2
    rw [hKp]; norm_num
  · refine ⟨?_, hI, hd, hpd⟩
    show -s.Kp_ * 2 = -2
    rw [hKp]; norm_num

/-- `TotalError` of the scenario controller after `UpdateError(2)`. -/
theorem TotalError_scenario (s : PID) (hp : s.p_error_ = -2) (hi : s.i_error_ = 0)
    (hd : s.d_error_ = 0) (hr : s.error_rate_max_ = DBL_MAX)
    (hlo : -1 ≤ s.prev_total_error_) (hhi : s.prev_total_error_ ≤ 1) :
    (TotalError s).2 = -1 := by
  have h := DBL_MAX_large
  show MinMaxLimit (RateLimit (s.p_error_ + s.i_error_ + s.d_error_) s.prev_total_error_
    s.error_rate_max_) 1 = -1
  rw [hp, hi, hd, hr]
  have hR : RateLimit (-2 + 0 + 0) s.prev_total_error_ DBL_MAX = -2 := by
    unfold RateLimit
    rw [if_neg (by linarith), if_neg (by linarith)]
    norm_num
  rw [hR]
  norm_num [MinMaxLimit]

/-- C14: after `Init(1, 0, 0)` with the default limits (`__DBL_MAX__` for the
integral, derivative and rate bounds, smoothing 1) on any prior object state,
`UpdateError(2.0)` gives proportional term -2, integral term 0 and derivative
term 0, and the following `TotalError()` returns -1. -/
theorem scenario_single_tick (s0 : PID) :
    (UpdateError (Init s0 1 0 0 DBL_MAX DBL_MAX 1 DBL_MAX) 2.0).p_error_ = -2.0 ∧
      (UpdateError (Init s0 1 0 0 DBL_MAX DBL_MAX 1 DBL_MAX) 2.0).i_error_ = 0 ∧
      (UpdateError (Init s0 1 0 0 DBL_MAX DBL_MAX 1 DBL_MAX) 2.0).d_error_ = 0 ∧
      (TotalError (UpdateError (Init s0 1 0 0 DBL_MAX DBL_MAX 1 DBL_MAX) 2.0)).2 = -1.0 := by
  have e2 : (2.0 : ℚ) = 2 := by norm_num
  have e1 : (-1.0 : ℚ) = -1 := by norm_num
  rw [e2, e1]
  have hU := UpdateError_scenario (Init s0 1 0 0 DBL_MAX DBL_MAX 1 DBL_MAX)
    rfl rfl rfl rfl rfl rfl rfl rfl rfl rfl
  have hF := UpdateError_frame (Init s0 1 0 0 DBL_MAX DBL_MAX 1 DBL_MAX) 2
  refine ⟨hU.1, hU.2.1, hU.2.2.1, ?_⟩
  apply TotalError_scenario _ hU.1 hU.2.1 hU.2.2.1
  · rw [hF.2.2.2.2.2.2.2.1]; rfl
  · rw [hF.2.2.2.2.2.2.2.2.1]; show (-1 : ℚ) ≤ 0; norm_num
  · rw [hF.2.2.2.2.2.2.2.2.1]; show (0 : ℚ) ≤ 1; norm_num

/-- C15: with the same controller, two ticks that each call `UpdateError(2.0)`
and then `TotalError()` return -1 both times and end with derivative term 0 and
integral term 0. -/
theorem scenario_two_ticks (s0 : PID) :
    (run (Init s0 1 0 0 DBL_MAX DBL_MAX 1 DBL_MAX)
        [TickCall.UpdateError 2.0, TickCall.TotalError, TickCall.UpdateError 2.0,
          TickCall.TotalError]).2 = [-1.0, -1.0] ∧
      (run (Init s0 1 0 0 DBL_MAX DBL_MAX 1 DBL_MAX)
        [TickCall.UpdateError 2.0, TickCall.TotalError, TickCall.UpdateError 2.0,
          TickCall.TotalError]).1.d_error_ = 0 ∧
      (run (Init s0 1 0 0 DBL_MAX DBL_MAX 1 DBL_MAX)
        [TickCall.UpdateError 2.0, TickCall.TotalError, TickCall.UpdateError 2.0,
          TickCall.TotalError]).1.i_error_ = 0 := by
  have e2 : (2.0 : ℚ) = 2 := by norm_num
  have e1 : (-1.0 : ℚ) = -1 := by norm_num
  rw [e2, e1]
  have hU := UpdateError_scenario (Init s0 1 0 0 DBL_MAX DBL_MAX 1 DBL_MAX)
    rfl rfl rfl rfl rfl rfl rfl rfl rfl rfl
  have hF := UpdateError_frame (Init s0 1 0 0 DBL_MAX DBL_MAX 1 DBL_MAX) 2
  have hT1 : (TotalError (UpdateError (Init s0 1 0 0 DBL_MAX DBL_MAX 1 DBL_MAX) 2)).2 = -1 := by
    apply TotalError_scenario _ hU.1 hU.2.1 hU.2.2.1
    · rw [hF.2.2.2.2.2.2.2.1]; rfl
    · rw [hF.2.2.2.2.2.2.2.2.1]; show (-1 : ℚ) ≤ 0; norm_num
    · rw [hF.2.2.2.2.2.2.2.2.1]; show (0 : ℚ) ≤ 1; norm_num
  have hB := TotalError_bounds (UpdateError (Init s0 1 0 0 DBL_MAX DBL_MAX 1 DBL_MAX) 2)
  have hU2 := UpdateError_scenario
    (TotalError (UpdateError (Init s0 1 0 0 DBL_MAX DBL_MAX 1 DBL_MAX) 2)).1
    (hF.1.trans rfl) (hF.2.1.trans rfl) (hF.2.2.1.trans rfl) (hF.2.2.2.1.trans rfl)
    (hF.2.2.2.2.1.trans rfl) (hF.2.2.2.2.2.1.trans rfl) (hF.2.2.2.2.2.2.1.trans rfl)
    hU.2.1 hU.2.2.1 hU.2.2.2
  have hF2 := UpdateError_frame
    (TotalError (UpdateError (Init s0 1 0 0 DBL_MAX DBL_MAX 1 DBL_MAX) 2)).1 2
  have hT2 : (TotalError (UpdateError
      (TotalError (UpdateError (Init s0 1 0 0 DBL_MAX DBL_MAX 1 DBL_MAX) 2)).1 2)).2 = -1 := by
    apply TotalError_scenario _ hU2.1 hU2.2.1 hU2.2.2.1
    · rw [hF2.2.2.2.2.2.2.2.1]; exact hF.2.2.2.2.2.2.2.1.trans rfl
    · rw [hF2.2.2.2.2.2.2.2.2.1, hB.2.2]; exact hB.1
    · rw [hF2.2.2.2.2.2.2.2.2.1, hB.2.2]; exact hB.2.1
  refine ⟨?_, hU2.2.2.1, hU2.2.1⟩
  show [_, _] = _
  rw [hT1, hT2]

/-! ## Twiddle: every call in a well-formed tuner state -/

/-- What one `TwiddleParamUpdate` does in each of its four branches, for a
tuner laid out as by `Init`: it returns, the layout is kept, the best error
becomes the minimum of the old best error and the episode error, only the step
of the active index may change (by the factor 1.2 or 0.8), and the derivative
memory, the derivative bound and the episode error are untouched. -/
theorem TwiddleParamUpdate_summary (s : PID) (hw : tunerOk s) :
    ∃ t, TwiddleParamUpdate s = some t ∧ tunerOk t ∧
      t.twiddle_best_error_ = min s.twiddle_best_error_ s.twiddle_error_ ∧
      (∀ j : Int, 0 ≤ j → j < 3 → j ≠ s.twiddle_idx_ → stepAt t j = stepAt s j) ∧
      (stepAt t s.twiddle_idx_ = 1.2 * stepAt s s.twiddle_idx_ ∨
        stepAt t s.twiddle_idx_ = 0.8 * stepAt s s.twiddle_idx_ ∨
        stepAt t s.twiddle_idx_ = stepAt s s.twiddle_idx_) ∧
      t.d_error_ = s.d_error_ ∧ t.prev_d_error_ = s.prev_d_error_ ∧
      t.d_max_ = s.d_max_ ∧ t.twiddle_error_ = s.twiddle_error_ := by
  obtain ⟨d0, d1, d2, hg, hd, hi⟩ := tunerOk_cases s hw
  have S := stepAt_eq s d0 d1 d2 hd
  cases hs : s.twiddle_switch_
  · by_cases he : s.twiddle_error_ < s.twiddle_best_error_
    · have hf := increase_improved_fields s d0 d1 d2 hs he hg hd
      have hmin := (min_eq_right (le_of_lt he)).symm
      rcases hi with hi | hi | hi
      · have S' := stepAt_eq { s with
            twiddle_best_error_ := s.twiddle_error_
            Kdeltas_ := [d0 * 1.2, d1, d2]
            twiddle_idx_ := 1
            Ki_ := s.Ki_ + d1 } _ _ _ rfl
        rw [hi]
        refine ⟨_, hf.1 hi, ⟨hg, rfl, ?_, ?_⟩, hmin, ?_, Or.inl ?_, rfl, rfl, rfl, rfl⟩
        · show (0 : Int) ≤ 1
          norm_num
        · show (1 : Int) < 3
          norm_num
        · intro j h0 h3 hj
          interval_cases j
          · exact absurd rfl hj
          · rw [S'.2.1, S.2.1]
          · rw [S'.2.2, S.2.2]
        · rw [S'.1, S.1]
          ring
      · have S' := stepAt_eq { s with
            twiddle_best_error_ := s.twiddle_error_
            Kdeltas_ := [d0, d1 * 1.2, d2]
            twiddle_idx_ := 2
            Kd_ := s.Kd_ + d2 } _ _ _ rfl
        rw [hi]
        refine ⟨_, hf.2.1 hi, ⟨hg, rfl, ?_, ?_⟩, hmin, ?_, Or.inl ?_, rfl, rfl, rfl, rfl⟩
        · show (0 : Int) ≤ 2
          norm_num
        · show (2 : Int) < 3
          norm_num
        · intro j h0 h3 hj
          interval_cases j
          · rw [S'.1, S.1]
          · exact absurd rfl hj
          · rw [S'.2.2, S.2.2]
        · rw [S'.2.1, S.2.1]
          ring
      · have S' := stepAt_eq { s with
            twiddle_best_error_ := s.twiddle_error_
            Kdeltas_ := [d0, d1, d2 * 1.2]
            twiddle_idx_ := 0
            Kp_ := s.Kp_ + d0 } _ _ _ rfl
        rw [hi]
        refine ⟨_, hf.2.2 hi, ⟨hg, rfl, ?_, ?_⟩, hmin, ?_, Or.inl ?_, rfl, rfl, rfl, rfl⟩
        · show (0 : Int) ≤ 0
          norm_num
        · show (0 : Int) < 3
          norm_num
        · intro j h0 h3 hj
          interval_cases j
          · rw [S'.1, S.1]
          · rw [S'.2.1, S.2.1]
          · exact absurd rfl hj
        · rw [S'.2.2, S.2.2]
          ring
    · have hf := increase_not_improved_fields s d0 d1 d2 hs he hg hd
      have hmin := (min_eq_left (not_lt.mp he)).symm
      rcases hi with hi | hi | hi
      · rw [hi]
        refine ⟨_, hf.1 hi, ⟨hg, hw.2.1, hw.2.2.1, hw.2.2.2⟩, hmin, fun j _ _ _ => rfl,
          Or.inr (Or.inr rfl), rfl, rfl, rfl, rfl⟩
      · rw [hi]
        refine ⟨_, hf.2.1 hi, ⟨hg, hw.2.1, hw.2.2.1, hw.2.2.2⟩, hmin, fun j _ _ _ => rfl,
          Or.inr (Or.inr rfl), rfl, rfl, rfl, rfl⟩
      · rw [hi]
        refine ⟨_, hf.2.2 hi, ⟨hg, hw.2.1, hw.2.2.1, hw.2.2.2⟩, hmin, fun j _ _ _ => rfl,
          Or.inr (Or.inr rfl), rfl, rfl, rfl, rfl⟩
  · by_cases he : s.twiddle_error_ < s.twiddle_best_error_
    · have hf := decrease_improved_fields s d0 d1 d2 hs he hg hd
      have hmin := (min_eq_right (le_of_lt he)).symm
      rcases hi with hi | hi | hi
      · have S' := stepAt_eq { s with
            twiddle_best_error_ := s.twiddle_error_
            Kdeltas_ := [d0 * 1.2, d1, d2]
            twiddle_idx_ := 1
            Ki_ := s.Ki_ + d1
            twiddle_switch_ := false } _ _ _ rfl
        rw [hi]
        refine ⟨_, hf.1 hi, ⟨hg, rfl, ?_, ?_⟩, hmin, ?_, Or.inl ?_, rfl, rfl, rfl, rfl⟩
        · show (0 : Int) ≤ 1
          norm_num
        · show (1 : Int) < 3
          norm_num
        · intro j h0 h3 hj
          interval_cases j
          · exact absurd rfl hj
          · rw [S'.2.1, S.2.1]
          · rw [S'.2.2, S.2.2]
        · rw [S'.1, S.1]
          ring
      · have S' := stepAt_eq { s with
            twiddle_best_error_ := s.twiddle_error_
            Kdeltas_ := [d0, d1 * 1.2, d2]
            twiddle_idx_ := 2
            Kd_ := s.Kd_ + d2
            twiddle_switch_ := false } _ _ _ rfl
        rw [hi]
        refine ⟨_, hf.2.1 hi, ⟨hg, rfl, ?_, ?_⟩, hmin, ?_, Or.inl ?_, rfl, rfl, rfl, rfl⟩
        · show (0 : Int) ≤ 2
          norm_num
        · show (2 : Int) < 3
          norm_num
        · intro j h0 h3 hj
          interval_cases j
          · rw [S'.1, S.1]
          · exact absurd rfl hj
          · rw [S'.2.2, S.2.2]
        · rw [S'.2.1, S.2.1]
          ring
      · have S' := stepAt_eq { s with
            twiddle_best_error_ := s.twiddle_error_
            Kdeltas_ := [d0, d1, d2 * 1.2]
            twiddle_idx_ := 0
            Kp_ := s.Kp_ + d0
            twiddle_switch_ := false } _ _ _ rfl
        rw [hi]
        refine ⟨_, hf.2.2 hi, ⟨hg, rfl, ?_, ?_⟩, hmin, ?_, Or.inl ?_, rfl, rfl, rfl, rfl⟩
        · show (0 : Int) ≤ 0
          norm_num
        · show (0 : Int) < 3
          norm_num
        · intro j h0 h3 hj
          interval_cases j
          · rw [S'.1, S.1]
          · rw [S'.2.1, S.2.1]
          · exact absurd rfl hj
        · rw [S'.2.2, S.2.2]
          ring
    · have hf := decrease_not_improved_fields s d0 d1 d2 hs he hg hd
      have hmin := (min_eq_left (not_lt.mp he)).symm
      rcases hi with hi | hi | hi
      · have S' := stepAt_eq { s with
            Kp_ := s.Kp_ + d0
            Kdeltas_ := [d0 * 0.8, d1, d2]
            twiddle_idx_ := 1
            Ki_ := s.Ki_ + d1
            twiddle_switch_ := false } _ _ _ rfl
        rw [hi]
        refine ⟨_, hf.1 hi, ⟨hg, rfl, ?_, ?_⟩, hmin, ?_, Or.inr (Or.inl ?_), rfl, rfl, rfl, rfl⟩
        · show (0 : Int) ≤ 1
          norm_num
        · show (1 : Int) < 3
          norm_num
        · intro j h0 h3 hj
          interval_cases j
          · exact absurd rfl hj
          · rw [S'.2.1, S.2.1]
          · rw [S'.2.2, S.2.2]
        · rw [S'.1, S.1]
          ring
      · have S' := stepAt_eq { s with
            Ki_ := s.Ki_ + d1
            Kdeltas_ := [d0, d1 * 0.8, d2]
            twiddle_idx_ := 2
            Kd_ := s.Kd_ + d2
            twiddle_switch_ := false } _ _ _ rfl
        rw [hi]
        refine ⟨_, hf.2.1 hi, ⟨hg, rfl, ?_, ?_⟩, hmin, ?_, Or.inr (Or.inl ?_), rfl, rfl, rfl, rfl⟩
        · show (0 : Int) ≤ 2
          norm_num
        · show (2 : Int) < 3
          norm_num
        · intro j h0 h3 hj
          interval_cases j
          · rw [S'.1, S.1]
          · exact absurd rfl hj
          · rw [S'.2.2, S.2.2]
        · rw [S'.2.1, S.2.1]
          ring
      · have S' := stepAt_eq { s with
            Kd_ := s.Kd_ + d2
            Kdeltas_ := [d0, d1, d2 * 0.8]
            twiddle_idx_ := 0
            Kp_ := s.Kp_ + d0
            twiddle_switch_ := false } _ _ _ rfl
        rw [hi]
        refine ⟨_, hf.2.2 hi, ⟨hg, rfl, ?_, ?_⟩, hmin, ?_, Or.inr (Or.inl ?_), rfl, rfl, rfl, rfl⟩
        · show (0 : Int) ≤ 0
          norm_num
        · show (0 : Int) < 3
          norm_num
        · intro j h0 h3 hj
          interval_cases j
          · rw [S'.1, S.1]
          · rw [S'.2.1, S.2.1]
          · exact absurd rfl hj
        · rw [S'.2.2, S.2.2]
          ring

/-! ## Sequences of operations from `Init` -/

/-- Every operation other than `TwiddleParamUpdate` returns and leaves the gain
list, the step sizes, the active index, the best error and the derivative bound
unchanged. -/
theorem applyCall_frame (absFn : ℚ → ℚ) (s : PID) (c : Call)
    (hc : c ≠ Call.TwiddleParamUpdate) :
    ∃ t, applyCall absFn s c = some t ∧ t.Kgains_ = s.Kgains_ ∧
      t.Kdeltas_ = s.Kdeltas_ ∧ t.twiddle_idx_ = s.twiddle_idx_ ∧
      t.twiddle_best_error_ = s.twiddle_best_error_ ∧ t.d_max_ = s.d_max_ := by
  have hF := fun cte => UpdateError_frame s cte
  cases c with
  | SetIntegralCut active => exact ⟨_, rfl, rfl, rfl, rfl, rfl, rfl⟩
  | SetTwiddleError e => exact ⟨_, rfl, rfl, rfl, rfl, rfl, rfl⟩
  | UpdateError cte =>
    exact ⟨_, rfl, (hF cte).2.2.2.2.2.2.2.2.2.1, (hF cte).2.2.2.2.2.2.2.2.2.2.1,
      (hF cte).2.2.2.2.2.2.2.2.2.2.2.1, (hF cte).2.2.2.2.2.2.2.2.2.2.2.2.1,
      (hF cte).2.2.2.2.1⟩
  | TotalError => exact ⟨_, rfl, rfl, rfl, rfl, rfl, rfl⟩
  | Reset => exact ⟨_, rfl, rfl, rfl, rfl, rfl, rfl⟩
  | TwiddleErrorUpdate cte steer => exact ⟨_, rfl, rfl, rfl, rfl, rfl, rfl⟩
  | TwiddleParamUpdate => exact absurd rfl hc

theorem tunerOk_of_frame (s t : PID) (hw : tunerOk s) (hg : t.Kgains_ = s.Kgains_)
    (hd : t.Kdeltas_ = s.Kdeltas_) (hi : t.twiddle_idx_ = s.twiddle_idx_) : tunerOk t := by
  unfold tunerOk
  rw [hg, hd, hi]
  exact hw

theorem stepAt_of_frame (s t : PID) (hd : t.Kdeltas_ = s.Kdeltas_) (j : Int) :
    stepAt t j = stepAt s j := by
  unfold stepAt
  rw [hd]

/-- An invariant kept by every operation is kept by every sequence of
operations, and the sequence returns. -/
theorem exec_invariant (absFn : ℚ → ℚ) (P : PID → Prop)
    (hP : ∀ s c, P s → ∃ t, applyCall absFn s c = some t ∧ P t) (calls : List Call) :
    ∀ s, P s → ∃ t, exec absFn s calls = some t ∧ P t := by
  induction calls with
  | nil => intro s hs; exact ⟨s, rfl, hs⟩
  | cons c cs ih =>
    intro s hs
    obtain ⟨t, ht, hPt⟩ := hP s c hs
    obtain ⟨u, hu, hPu⟩ := ih t hPt
    refine ⟨u, ?_, hPu⟩
    show (applyCall absFn s c).bind (fun t => exec absFn t cs) = some u
    rw [ht]
    exact hu

theorem Init_tunerOk (s0 : PID) (Kp Ki Kd i_max d_max d_smooth error_rate_max : ℚ) :
    tunerOk (Init s0 Kp Ki Kd i_max d_max d_smooth error_rate_max) :=
  ⟨rfl, rfl, le_refl _, by show (0 : Int) < 3; norm_num⟩

theorem applyCall_tunerOk (absFn : ℚ → ℚ) (s : PID) (c : Call) (hw : tunerOk s) :
    ∃ t, applyCall absFn s c = some t ∧ tunerOk t := by
  by_cases hc : c = Call.TwiddleParamUpdate
  · subst hc
    obtain ⟨t, ht, hwt, _⟩ := TwiddleParamUpdate_summary s hw
    exact ⟨t, ht, hwt⟩
  · obtain ⟨t, ht, hg, hd, hi, _⟩ := applyCall_frame absFn s c hc
    exact ⟨t, ht, tunerOk_of_frame s t hw hg hd hi⟩

/-- C20: in every state reached from `Init` by any sequence of operations
(`TwiddleErrorUpdate`, `TwiddleParamUpdate`, `UpdateError`, `TotalError`, `Reset`
and the writes of the cut flag and of the episode error), the sequence has run
without an out-of-range access, the active index is 0, 1 or 2, the gain list and
the step list have three entries, and a further `TwiddleParamUpdate` returns
without an out-of-range access. -/
theorem tuner_indices_in_range (absFn : ℚ → ℚ) (s0 : PID)
    (Kp Ki Kd i_max d_max d_smooth error_rate_max : ℚ) (calls : List Call) :
    ∃ t, exec absFn (Init s0 Kp Ki Kd i_max d_max d_smooth error_rate_max) calls = some t ∧
      (t.twiddle_idx_ = 0 ∨ t.twiddle_idx_ = 1 ∨ t.twiddle_idx_ = 2) ∧
      t.Kgains_.length = 3 ∧ t.Kdeltas_.length = 3 ∧
      (∃ g d, vecAt t.Kgains_ t.twiddle_idx_ = some g ∧
        vecAt t.Kdeltas_ t.twiddle_idx_ = some d) ∧
      ∃ u, TwiddleParamUpdate t = some u := by
  obtain ⟨t, ht, hw⟩ := exec_invariant absFn tunerOk (applyCall_tunerOk absFn) calls
    (Init s0 Kp Ki Kd i_max d_max d_smooth error_rate_max)
    (Init_tunerOk s0 Kp Ki Kd i_max d_max d_smooth error_rate_max)
  obtain ⟨u, hu, _⟩ := TwiddleParamUpdate_summary t hw
  obtain ⟨d0, d1, d2, hg, hd, hi⟩ := tunerOk_cases t hw
  refine ⟨t, ht, hi, by rw [hg]; rfl, hw.2.1, ?_, u, hu⟩
  rw [hg, hd]
  rcases hi with hi | hi | hi <;> rw [hi]
  · exact ⟨_, _, vecAt_zero _ _, vecAt_zero _ _⟩
  · exact ⟨_, _, vecAt_one _ _ _, vecAt_one _ _ _⟩
  · exact ⟨_, _, vecAt_two _ _ _ _, vecAt_two _ _ _ _⟩

theorem TwiddleParamUpdate_steps_pos (s : PID) (hw : tunerOk s)
    (hpos : ∀ j : Int, 0 ≤ j → j < 3 → 0 < stepAt s j) :
    ∃ t, TwiddleParamUpdate s = some t ∧ tunerOk t ∧
      (∀ j : Int, 0 ≤ j → j < 3 → 0 < stepAt t j) ∧
      (∀ j : Int, 0 ≤ j → j < 3 → j ≠ s.twiddle_idx_ → stepAt t j = stepAt s j) ∧
      (stepAt t s.twiddle_idx_ = 1.2 * stepAt s s.twiddle_idx_ ∨
        stepAt t s.twiddle_idx_ = 0.8 * stepAt s s.twiddle_idx_ ∨
        stepAt t s.twiddle_idx_ = stepAt s s.twiddle_idx_) := by
  obtain ⟨t, ht, hwt, _, hother, hk, _⟩ := TwiddleParamUpdate_summary s hw
  refine ⟨t, ht, hwt, ?_, hother, hk⟩
  intro j h0 h3
  by_cases hj : j = s.twiddle_idx_
  · have hp := hpos j h0 h3
    rw [hj] at hp ⊢
    rcases hk with hk | hk | hk <;> rw [hk]
    · have : (0 : ℚ) < 1.2 := by norm_num
      positivity
    · have : (0 : ℚ) < 0.8 := by norm_num
      positivity
    · exact hp
  · rw [hother j h0 h3 hj]
    exact hpos j h0 h3

theorem Init_steps_pos (s0 : PID) (Kp Ki Kd i_max d_max d_smooth error_rate_max : ℚ) :
    ∀ j : Int, 0 ≤ j → j < 3 →
      0 < stepAt (Init s0 Kp Ki Kd i_max d_max d_smooth error_rate_max) j := by
  have S := stepAt_eq (Init s0 Kp Ki Kd i_max d_max d_smooth error_rate_max)
    0.05 0.0005 1.0 rfl
  intro j h0 h3
  interval_cases j
  · rw [S.1]; norm_num
  · rw [S.2.1]; norm_num
  · rw [S.2.2]; norm_num

theorem applyCall_steps_pos (absFn : ℚ → ℚ) (s : PID) (c : Call)
    (h : tunerOk s ∧ ∀ j : Int, 0 ≤ j → j < 3 → 0 < stepAt s j) :
    ∃ t, applyCall absFn s c = some t ∧
      (tunerOk t ∧ ∀ j : Int, 0 ≤ j → j < 3 → 0 < stepAt t j) := by
  by_cases hc : c = Call.TwiddleParamUpdate
  · subst hc
    obtain ⟨t, ht, hwt, hp, _⟩ := TwiddleParamUpdate_steps_pos s h.1 h.2
    exact ⟨t, ht, hwt, hp⟩
  · obtain ⟨t, ht, hg, hd, hi, _⟩ := applyCall_frame absFn s c hc
    refine ⟨t, ht, tunerOk_of_frame s t h.1 hg hd hi, fun j h0 h3 => ?_⟩
    rw [stepAt_of_frame s t hd j]
    exact h.2 j h0 h3

/-- C19: in a tuner state with three positive step sizes, one
`TwiddleParamUpdate` leaves all three positive and changes at most the step of
the index active before the call, to 1.2 times or 0.8 times its old value (or
leaves it); `Init` sets the steps to 0.05, 0.0005 and 1.0, and they are
positive in every state reached from `Init` by any sequence of operations. -/
theorem steps_stay_positive (absFn : ℚ → ℚ) (s : PID) (hw : tunerOk s)
    (hpos : ∀ j : Int, 0 ≤ j → j < 3 → 0 < stepAt s j) (s0 : PID)
    (Kp Ki Kd i_max d_max d_smooth error_rate_max : ℚ) (calls : List Call) :
    (∃ t, TwiddleParamUpdate s = some t ∧
        (∀ j : Int, 0 ≤ j → j < 3 → 0 < stepAt t j) ∧
        (∀ j : Int, 0 ≤ j → j < 3 → j ≠ s.twiddle_idx_ → stepAt t j = stepAt s j) ∧
        (stepAt t s.twiddle_idx_ = 1.2 * stepAt s s.twiddle_idx_ ∨
          stepAt t s.twiddle_idx_ = 0.8 * stepAt s s.twiddle_idx_ ∨
          stepAt t s.twiddle_idx_ = stepAt s s.twiddle_idx_)) ∧
      (Init s0 Kp Ki Kd i_max d_max d_smooth error_rate_max).Kdeltas_
        = [0.05, 0.0005, 1.0] ∧
      ∃ t, exec absFn (Init s0 Kp Ki Kd i_max d_max d_smooth error_rate_max) calls = some t ∧
        ∀ j : Int, 0 ≤ j → j < 3 → 0 < stepAt t j := by
  obtain ⟨t, ht, _, hp, hother, hk⟩ := TwiddleParamUpdate_steps_pos s hw hpos
  obtain ⟨u, hu, _, hpu⟩ := exec_invariant absFn
    (fun s => tunerOk s ∧ ∀ j : Int, 0 ≤ j → j < 3 → 0 < stepAt s j)
    (applyCall_steps_pos absFn) calls
    (Init s0 Kp Ki Kd i_max d_max d_smooth error_rate_max)
    ⟨Init_tunerOk s0 Kp Ki Kd i_max d_max d_smooth error_rate_max,
      Init_steps_pos s0 Kp Ki Kd i_max d_max d_smooth error_rate_max⟩
  exact ⟨⟨t, ht, hp, hother, hk⟩, rfl, u, hu, hpu⟩

/-- Witness of C19: the scenario tuner (steps all 1.0) and a run from `Init` with
two episode boundaries. -/
theorem steps_stay_positive_witness :
    (∃ t, TwiddleParamUpdate scenarioTuner = some t ∧
        (∀ j : Int, 0 ≤ j → j < 3 → 0 < stepAt t j) ∧
        (∀ j : Int, 0 ≤ j → j < 3 → j ≠ scenarioTuner.twiddle_idx_ →
          stepAt t j = stepAt scenarioTuner j) ∧
        (stepAt t scenarioTuner.twiddle_idx_
            = 1.2 * stepAt scenarioTuner scenarioTuner.twiddle_idx_ ∨
          stepAt t scenarioTuner.twiddle_idx_
            = 0.8 * stepAt scenarioTuner scenarioTuner.twiddle_idx_ ∨
          stepAt t scenarioTuner.twiddle_idx_
            = stepAt scenarioTuner scenarioTuner.twiddle_idx_)) ∧
      (Init blank 1 0 0 1 1 1 1).Kdeltas_ = [0.05, 0.0005, 1.0] ∧
      ∃ t, exec absInt (Init blank 1 0 0 1 1 1 1)
          [Call.TwiddleErrorUpdate 1 2, Call.TwiddleParamUpdate, Call.Reset,
            Call.SetTwiddleError 999999, Call.TwiddleParamUpdate] = some t ∧
        ∀ j : Int, 0 ≤ j → j < 3 → 0 < stepAt t j :=
  steps_stay_positive absInt scenarioTuner
    ⟨rfl, rfl, le_refl _, by norm_num [scenarioTuner, Init, Reset]⟩
    (by
      have S := stepAt_eq scenarioTuner 1.0 1.0 1.0 rfl
      intro j h0 h3
      interval_cases j
      · rw [S.1]; norm_num
      · rw [S.2.1]; norm_num
      · rw [S.2.2]; norm_num)
    blank 1 0 0 1 1 1 1 _

theorem abs_MinMaxLimit_le (x m : ℚ) (hm : 0 ≤ m) : |MinMaxLimit x m| ≤ m :=
  abs_le.mpr ⟨neg_le_MinMaxLimit x m hm, MinMaxLimit_le x m hm⟩

/-- One `UpdateError` keeps the derivative term and the previous filtered
derivative within the derivative bound, on a recomputing tick and on a latched
one. -/
theorem UpdateError_keeps_d_bound (s : PID) (cte : ℚ) (hd : 0 ≤ s.d_max_)
    (h1 : |s.d_error_| ≤ s.d_max_) (h2 : |s.prev_d_error_| ≤ s.d_max_) :
    |(UpdateError s cte).d_error_| ≤ s.d_max_ ∧
      |(UpdateError s cte).prev_d_error_| ≤ s.d_max_ := by
  by_cases hc : cte ≠ s.prev_cte_
  · have h := UpdateError_d_recomputed s cte hc
    rw [h.1, h.2]
    exact ⟨abs_MinMaxLimit_le _ _ hd, abs_MinMaxLimit_le _ _ hd⟩
  · have h := UpdateError_same_cte s cte (not_not.mp hc).symm
    rw [h.1, h.2.1]
    exact ⟨h1, h2⟩

theorem applyCall_keeps_d_bound (absFn : ℚ → ℚ) (d : ℚ) (hd : 0 ≤ d) (s : PID)
    (c : Call)
    (h : tunerOk s ∧ s.d_max_ = d ∧ |s.d_error_| ≤ d ∧ |s.prev_d_error_| ≤ d) :
    ∃ t, applyCall absFn s c = some t ∧
      (tunerOk t ∧ t.d_max_ = d ∧ |t.d_error_| ≤ d ∧ |t.prev_d_error_| ≤ d) := by
  obtain ⟨hw, hm, h1, h2⟩ := h
  have h0 : |(0 : ℚ)| ≤ d := by rw [abs_zero]; exact hd
  cases c with
  | SetIntegralCut active =>
    exact ⟨_, rfl, tunerOk_of_frame s _ hw rfl rfl rfl, hm, h1, h2⟩
  | SetTwiddleError e =>
    exact ⟨_, rfl, tunerOk_of_frame s _ hw rfl rfl rfl, hm, h1, h2⟩
  | UpdateError cte =>
    have hF := UpdateError_frame s cte
    have hB := UpdateError_keeps_d_bound s cte (hm ▸ hd) (hm ▸ h1) (hm ▸ h2)
    rw [hm] at hB
    exact ⟨_, rfl, tunerOk_of_frame s _ hw hF.2.2.2.2.2.2.2.2.2.1
      hF.2.2.2.2.2.2.2.2.2.2.1 hF.2.2.2.2.2.2.2.2.2.2.2.1, hF.2.2.2.2.1.trans hm, hB.1, hB.2⟩
  | TotalError =>
    exact ⟨_, rfl, tunerOk_of_frame s _ hw rfl rfl rfl, hm, h1, h2⟩
  | Reset =>
    exact ⟨_, rfl, tunerOk_of_frame s _ hw rfl rfl rfl, hm, h0, h0⟩
  | TwiddleErrorUpdate cte steer =>
    exact ⟨_, rfl, tunerOk_of_frame s _ hw rfl rfl rfl, hm, h1, h2⟩
  | TwiddleParamUpdate =>
    obtain ⟨t, ht, hwt, _, _, _, e1, e2, e3, _⟩ := TwiddleParamUpdate_summary s hw
    exact ⟨t, ht, hwt, e3.trans hm, e1 ▸ h1, e2 ▸ h2⟩

/-- C18: from `Init` with derivative bound `d_max ≥ 0` and smoothing `≥ 1`, after
any sequence of operations (`UpdateError`, `TotalError`, `Reset`, writes of the
cut flag, and the tuner's operations as well) the derivative term and the
stored previous filtered derivative have magnitude at most `d_max`. -/
theorem derivative_bounded (absFn : ℚ → ℚ) (s0 : PID)
    (Kp Ki Kd i_max d_max d_smooth error_rate_max : ℚ) (hd : 0 ≤ d_max)
    (_hs : 1 ≤ d_smooth) (calls : List Call) :
    ∃ t, exec absFn (Init s0 Kp Ki Kd i_max d_max d_smooth error_rate_max) calls = some t ∧
      |t.d_error_| ≤ d_max ∧ |t.prev_d_error_| ≤ d_max := by
  have h0 : |(0 : ℚ)| ≤ d_max := by rw [abs_zero]; exact hd
  obtain ⟨t, ht, _, _, h1, h2⟩ := exec_invariant absFn
    (fun s => tunerOk s ∧ s.d_max_ = d_max ∧ |s.d_error_| ≤ d_max ∧ |s.prev_d_error_| ≤ d_max)
    (applyCall_keeps_d_bound absFn d_max hd) calls
    (Init s0 Kp Ki Kd i_max d_max d_smooth error_rate_max)
    ⟨Init_tunerOk s0 Kp Ki Kd i_max d_max d_smooth error_rate_max, rfl, h0, h0⟩
  exact ⟨t, ht, h1, h2⟩

/-- Witness of C18: the controller of main.cpp (derivative bound 0.2, smoothing
3) over a recomputing tick, a latched tick, a reset and another tick. -/
theorem derivative_bounded_witness :
    ∃ t, exec absInt (Init blank 0.084271 0.000690 3.0 1.0 0.2 3.0 0.05)
        [Call.UpdateError 1, Call.TotalError, Call.UpdateError 1, Call.TotalError,
          Call.Reset, Call.SetIntegralCut true, Call.UpdateError 0, Call.TotalError]
        = some t ∧
      |t.d_error_| ≤ 0.2 ∧ |t.prev_d_error_| ≤ 0.2 :=
  derivative_bounded absInt blank 0.084271 0.000690 3.0 1.0 0.2 3.0 0.05
    (by norm_num) (by norm_num) _

theorem seenErrors_TwiddleParamUpdate (absFn : ℚ → ℚ) (s t : PID) (cs : List Call)
    (h : TwiddleParamUpdate s = some t) :
    seenErrors absFn s (Call.TwiddleParamUpdate :: cs)
      = s.twiddle_error_ :: seenErrors absFn t cs := by
  rw [seenErrors, h]

theorem seenErrors_other (absFn : ℚ → ℚ) (s t : PID) (c : Call) (cs : List Call)
    (hc : c ≠ Call.TwiddleParamUpdate) (h : applyCall absFn s c = some t) :
    seenErrors absFn s (c :: cs) = seenErrors absFn t cs := by
  cases c with
  | TwiddleParamUpdate => exact absurd rfl hc
  | _ =>
    rw [seenErrors, h]
    exact hc

/-- From a well-formed tuner state, a sequence of operations returns, and the
best error afterwards is the minimum of the best error before and the episode
errors seen by the `TwiddleParamUpdate` calls. -/
theorem exec_best (absFn : ℚ → ℚ) (calls : List Call) :
    ∀ s, tunerOk s → ∃ t, exec absFn s calls = some t ∧
      t.twiddle_best_error_
        = (seenErrors absFn s calls).foldl min s.twiddle_best_error_ := by
  induction calls with
  | nil => intro s _; exact ⟨s, rfl, rfl⟩
  | cons c cs ih =>
    intro s hw
    by_cases hc : c = Call.TwiddleParamUpdate
    · subst hc
      obtain ⟨t, ht, hwt, hb, _⟩ := TwiddleParamUpdate_summary s hw
      obtain ⟨u, hu, hub⟩ := ih t hwt
      refine ⟨u, ?_, ?_⟩
      · show (TwiddleParamUpdate s).bind (fun t => exec absFn t cs) = some u
        rw [ht]
        exact hu
      · rw [seenErrors_TwiddleParamUpdate absFn s t cs ht, List.foldl_cons, ← hb]
        exact hub
    · obtain ⟨t, ht, hg, hd, hi, hb, _⟩ := applyCall_frame absFn s c hc
      obtain ⟨u, hu, hub⟩ := ih t (tunerOk_of_frame s t hw hg hd hi)
      refine ⟨u, ?_, ?_⟩
      · show (applyCall absFn s c).bind (fun t => exec absFn t cs) = some u
        rw [ht]
        exact hu
      · rw [seenErrors_other absFn s t c cs hc ht, ← hb]
        exact hub

theorem foldl_min_le (l : List ℚ) : ∀ a : ℚ, l.foldl min a ≤ a := by
  induction l with
  | nil => intro a; exact le_refl a
  | cons x xs ih =>
    intro a
    rw [List.foldl_cons]
    exact le_trans (ih (min a x)) (min_le_left a x)

/-- C16: in a well-formed tuner state and in either phase, `TwiddleParamUpdate`
leaves the best error at the minimum of the old best error and the episode
error, so it does not increase; after any sequence of operations from `Init`
the best error is the minimum of its initial value `__DBL_MAX__` and the episode
errors seen by the `TwiddleParamUpdate` calls. -/
theorem bestError_is_min (absFn : ℚ → ℚ) (s : PID) (hw : tunerOk s) (s0 : PID)
    (Kp Ki Kd i_max d_max d_smooth error_rate_max : ℚ) (calls : List Call) :
    (∃ t, TwiddleParamUpdate s = some t ∧
        t.twiddle_best_error_ = min s.twiddle_best_error_ s.twiddle_error_ ∧
        t.twiddle_best_error_ ≤ s.twiddle_best_error_) ∧
      ∃ t, exec absFn (Init s0 Kp Ki Kd i_max d_max d_smooth error_rate_max) calls = some t ∧
        t.twiddle_best_error_
          = (seenErrors absFn (Init s0 Kp Ki Kd i_max d_max d_smooth error_rate_max)
              calls).foldl min DBL_MAX ∧
        t.twiddle_best_error_ ≤ DBL_MAX := by
  obtain ⟨t, ht, _, hb, _⟩ := TwiddleParamUpdate_summary s hw
  obtain ⟨u, hu, hub⟩ := exec_best absFn calls
    (Init s0 Kp Ki Kd i_max d_max d_smooth error_rate_max)
    (Init_tunerOk s0 Kp Ki Kd i_max d_max d_smooth error_rate_max)
  refine ⟨⟨t, ht, hb, ?_⟩, u, hu, hub, ?_⟩
  · rw [hb]
    exact min_le_left _ _
  · rw [hub]
    exact foldl_min_le _ _

/-- Witness of C16: the scenario tuner (best error 10, episode error 5) ends
with best error 5, and from `Init` two episodes with errors 7 and 9 end with
best error 7. -/
theorem bestError_is_min_witness :
    (∃ t, TwiddleParamUpdate scenarioTuner = some t ∧ t.twiddle_best_error_ = 5) ∧
      ∃ t, exec absInt (Init blank 1 0 0 1 1 1 1)
          [Call.SetTwiddleError 7, Call.TwiddleParamUpdate, Call.Reset,
            Call.SetTwiddleError 9, Call.TwiddleParamUpdate] = some t ∧
        t.twiddle_best_error_ = 7 := by
  obtain ⟨⟨t, ht, hb, _⟩, u, hu, hub, _⟩ :=
    bestError_is_min absInt scenarioTuner
      ⟨rfl, rfl, le_refl _, by norm_num [scenarioTuner, Init, Reset]⟩
      blank 1 0 0 1 1 1 1
      [Call.SetTwiddleError 7, Call.TwiddleParamUpdate, Call.Reset,
        Call.SetTwiddleError 9, Call.TwiddleParamUpdate]
  have hw0 := Init_tunerOk blank 1 0 0 1 1 1 1
  obtain ⟨t1, h1, hw1, _⟩ := TwiddleParamUpdate_summary
    { Init blank 1 0 0 1 1 1 1 with twiddle_error_ := 7 }
    (tunerOk_of_frame _ _ hw0 rfl rfl rfl)
  obtain ⟨t2, h2, _⟩ := TwiddleParamUpdate_summary
    { Reset t1 with twiddle_error_ := 9 }
    (tunerOk_of_frame _ _ hw1 rfl rfl rfl)
  have hseen : seenErrors absInt (Init blank 1 0 0 1 1 1 1)
      [Call.SetTwiddleError 7, Call.TwiddleParamUpdate, Call.Reset,
        Call.SetTwiddleError 9, Call.TwiddleParamUpdate] = [7, 9] := by
    rw [seenErrors_other absInt (Init blank 1 0 0 1 1 1 1)
        { Init blank 1 0 0 1 1 1 1 with twiddle_error_ := 7 } (Call.SetTwiddleError 7) _
        (by intro h; cases h) rfl,
      seenErrors_TwiddleParamUpdate absInt _ t1 _ h1,
      seenErrors_other absInt t1 (Reset t1) Call.Reset _ (by intro h; cases h) rfl,
      seenErrors_other absInt (Reset t1) { Reset t1 with twiddle_error_ := 9 }
        (Call.SetTwiddleError 9) _ (by intro h; cases h) rfl,
      seenErrors_TwiddleParamUpdate absInt _ t2 _ h2]
    rfl
  refine ⟨⟨t, ht, ?_⟩, u, hu, ?_⟩
  · rw [hb]
    norm_num [scenarioTuner, Init, Reset]
  · rw [hub, hseen]
    norm_num [DBL_MAX]

/-! ## Rounding to the nearest double -/

theorem roundHalfEven_cases (y : ℚ) :
    roundHalfEven y = ⌊y⌋ ∧ y - ⌊y⌋ ≤ 1 / 2 ∨
      roundHalfEven y = ⌊y⌋ + 1 ∧ 1 / 2 ≤ y - ⌊y⌋ := by
  unfold roundHalfEven
  split_ifs with h1 h2 h3
  · exact Or.inl ⟨rfl, le_of_lt h1⟩
  · exact Or.inr ⟨rfl, le_of_lt h2⟩
  · exact Or.inl ⟨rfl, not_lt.mp h2⟩
  · exact Or.inr ⟨rfl, not_lt.mp h1⟩

theorem roundHalfEven_close (y : ℚ) : |(roundHalfEven y : ℚ) - y| ≤ 1 / 2 := by
  have hf := Int.floor_le y
  have hl := Int.lt_floor_add_one y
  rw [abs_le]
  rcases roundHalfEven_cases y with ⟨h, hh⟩ | ⟨h, hh⟩
  · rw [h]; constructor <;> linarith
  · rw [h]; push_cast; constructor <;> linarith

theorem le_roundHalfEven (n : Int) (y : ℚ) (h : (n : ℚ) ≤ y) : n ≤ roundHalfEven y := by
  have hn : n ≤ ⌊y⌋ := Int.le_floor.mpr h
  rcases roundHalfEven_cases y with ⟨h1, _⟩ | ⟨h1, _⟩ <;> rw [h1] <;> omega

theorem roundHalfEven_le (n : Int) (y : ℚ) (h : y ≤ (n : ℚ)) : roundHalfEven y ≤ n := by
  rcases roundHalfEven_cases y with ⟨h1, _⟩ | ⟨h1, hh⟩
  · rw [h1]
    have : (⌊y⌋ : ℚ) ≤ n := le_trans (Int.floor_le y) h
    exact_mod_cast this
  · rw [h1]
    have hlt : (⌊y⌋ : ℚ) < n := by linarith
    have : ⌊y⌋ < n := by exact_mod_cast hlt
    omega

theorem roundHalfEven_intCast (n : Int) : roundHalfEven (n : ℚ) = n := by
  unfold roundHalfEven
  rw [Int.floor_intCast, sub_self, if_pos (by norm_num)]

theorem abs_roundHalfEven_le (N : Int) (y : ℚ) (h : |y| ≤ (N : ℚ)) :
    |(roundHalfEven y : ℚ)| ≤ (N : ℚ) := by
  rw [abs_le] at h ⊢
  have h1 : -N ≤ roundHalfEven y := le_roundHalfEven (-N) y (by push_cast; exact h.1)
  have h2 : roundHalfEven y ≤ N := roundHalfEven_le N y h.2
  constructor
  · exact_mod_cast h1
  · exact_mod_cast h2

theorem le_abs_roundHalfEven (N : Int) (y : ℚ) (h : (N : ℚ) ≤ |y|) :
    (N : ℚ) ≤ |(roundHalfEven y : ℚ)| := by
  rcases le_abs.mp h with h1 | h1
  · have := le_roundHalfEven N y h1
    have h2 : (N : ℚ) ≤ (roundHalfEven y : ℚ) := by exact_mod_cast this
    exact le_trans h2 (le_abs_self _)
  · have := roundHalfEven_le (-N) y (by push_cast; linarith)
    have h2 : (roundHalfEven y : ℚ) ≤ -(N : ℚ) := by exact_mod_cast this
    exact le_trans (by linarith) (neg_le_abs _)

theorem binExp_ge (x : ℚ) : -1022 ≤ binExp x :=
  le_max_right _ _

theorem abs_lt_zpow_binExp (x : ℚ) : |x| < (2 : ℚ) ^ (binExp x + 1) := by
  have h := Int.lt_zpow_succ_log_self (by norm_num : 1 < 2) |x|
  have h2 : ((2 : ℕ) : ℚ) ^ (Int.log 2 |x| + 1) ≤ (2 : ℚ) ^ (binExp x + 1) := by
    rw [Nat.cast_ofNat]
    apply zpow_le_zpow_right₀ (by norm_num)
    have := le_max_left (Int.log 2 |x|) (-1022)
    unfold binExp
    omega
  exact lt_of_lt_of_le h h2

theorem zpow_binExp_le_abs (x : ℚ) (hx : x ≠ 0) (h : binExp x ≠ -1022) :
    (2 : ℚ) ^ binExp x ≤ |x| := by
  have hpos : 0 < |x| := abs_pos.mpr hx
  have h1 := Int.zpow_log_le_self (by norm_num : 1 < 2) hpos
  rw [Nat.cast_ofNat] at h1
  have : binExp x = Int.log 2 |x| := by
    unfold binExp at h ⊢
    rcases max_choice (Int.log 2 |x|) (-1022) with hm | hm
    · exact hm
    · exact absurd hm h
  rw [this]
  exact h1

theorem fl_zero : fl 0 = 0 := by
  simp [fl, roundHalfEven]

theorem abs_fl (x : ℚ) :
    |fl x| = |(roundHalfEven (x / 2 ^ (binExp x - 52)) : ℚ)| * 2 ^ (binExp x - 52) := by
  unfold fl
  rw [abs_mul, abs_of_pos (zpow_pos (by norm_num : (0 : ℚ) < 2) _)]

/-- The rounding error of `fl` is at most half a unit in the last place. -/
theorem fl_err (x : ℚ) : |fl x - x| ≤ (2 : ℚ) ^ (binExp x - 53) := by
  have hq : (0 : ℚ) < 2 ^ (binExp x - 52) := zpow_pos (by norm_num) _
  have h := roundHalfEven_close (x / 2 ^ (binExp x - 52))
  have e1 : fl x - x
      = ((roundHalfEven (x / 2 ^ (binExp x - 52)) : ℚ) - x / 2 ^ (binExp x - 52))
        * 2 ^ (binExp x - 52) := by
    unfold fl
    field_simp
  have e2 : (2 : ℚ) ^ (binExp x - 53) = 1 / 2 * 2 ^ (binExp x - 52) := by
    rw [show binExp x - 52 = (binExp x - 53) + 1 from by ring, zpow_add_one₀ (by norm_num)]
    ring
  rw [e1, abs_mul, abs_of_pos hq, e2]
  exact mul_le_mul_of_nonneg_right h (le_of_lt hq)

theorem abs_fl_le_zpow (x : ℚ) : |fl x| ≤ (2 : ℚ) ^ (binExp x + 1) := by
  have hq : (0 : ℚ) < 2 ^ (binExp x - 52) := zpow_pos (by norm_num) _
  have e2 : (2 : ℚ) ^ (binExp x + 1)
      = ((9007199254740992 : Int) : ℚ) * 2 ^ (binExp x - 52) := by
    rw [show binExp x + 1 = 53 + (binExp x - 52) from by ring, zpow_add₀ (by norm_num)]
    norm_num
  have hy : |x / 2 ^ (binExp x - 52)| ≤ ((9007199254740992 : Int) : ℚ) := by
    rw [abs_div, abs_of_pos hq, div_le_iff₀ hq, ← e2]
    exact le_of_lt (abs_lt_zpow_binExp x)
  rw [abs_fl, e2]
  exact mul_le_mul_of_nonneg_right (abs_roundHalfEven_le _ _ hy) (le_of_lt hq)

theorem zpow_le_abs_fl (x : ℚ) (h : (2 : ℚ) ^ binExp x ≤ |x|) :
    (2 : ℚ) ^ binExp x ≤ |fl x| := by
  have hq : (0 : ℚ) < 2 ^ (binExp x - 52) := zpow_pos (by norm_num) _
  have e2 : (2 : ℚ) ^ binExp x = ((4503599627370496 : Int) : ℚ) * 2 ^ (binExp x - 52) := by
    rw [show binExp x = 52 + (binExp x - 52) from by ring, zpow_add₀ (by norm_num)]
    rw [show 52 + (binExp x - 52) - 52 = binExp x - 52 from by ring]
    norm_num
  have hy : ((4503599627370496 : Int) : ℚ) ≤ |x / 2 ^ (binExp x - 52)| := by
    rw [abs_div, abs_of_pos hq, le_div_iff₀ hq, ← e2]
    exact h
  rw [abs_fl]
  calc (2 : ℚ) ^ binExp x = ((4503599627370496 : Int) : ℚ) * 2 ^ (binExp x - 52) := e2
    _ ≤ _ := mul_le_mul_of_nonneg_right (le_abs_roundHalfEven _ _ hy) (le_of_lt hq)

theorem binExp_eq (x : ℚ) (e : Int) (he : -1022 ≤ e) (h1 : (2 : ℚ) ^ e ≤ |x|)
    (h2 : |x| < (2 : ℚ) ^ (e + 1)) : binExp x = e := by
  have hpos : 0 < |x| := lt_of_lt_of_le (zpow_pos (by norm_num) _) h1
  have hl : Int.log 2 |x| = e := by
    apply le_antisymm
    · have := (Int.lt_zpow_iff_log_lt (by norm_num : 1 < 2) hpos).mp
        (by rw [Nat.cast_ofNat]; exact h2)
      omega
    · exact (Int.zpow_le_iff_le_log (by norm_num : 1 < 2) hpos).mp
        (by rw [Nat.cast_ofNat]; exact h1)
  unfold binExp
  rw [hl]
  exact max_eq_left he

theorem fl_eq (x : ℚ) (e m : Int) (hb : binExp x = e)
    (hm : roundHalfEven (x / 2 ^ (e - 52)) = m) : fl x = (m : ℚ) * 2 ^ (e - 52) := by
  unfold fl
  rw [hb, hm]

theorem fl_one : fl 1 = 1 := by
  have hb : binExp 1 = 0 := binExp_eq 1 0 (by norm_num) (by norm_num) (by norm_num)
  have hm : roundHalfEven (1 / 2 ^ ((0 : Int) - 52)) = 4503599627370496 := by
    have : (1 : ℚ) / 2 ^ ((0 : Int) - 52) = ((4503599627370496 : Int) : ℚ) := by norm_num
    rw [this, roundHalfEven_intCast]
  rw [fl_eq 1 0 _ hb hm]
  norm_num

theorem fl_neg_one : fl (-1) = -1 := by
  have hb : binExp (-1) = 0 := binExp_eq (-1) 0 (by norm_num) (by norm_num) (by norm_num)
  have hm : roundHalfEven (-1 / 2 ^ ((0 : Int) - 52)) = -4503599627370496 := by
    have : (-1 : ℚ) / 2 ^ ((0 : Int) - 52) = ((-4503599627370496 : Int) : ℚ) := by norm_num
    rw [this, roundHalfEven_intCast]
  rw [fl_eq (-1) 0 _ hb hm]
  norm_num

theorem binExp_neg_of_abs_lt_one (x : ℚ) (hx : x ≠ 0) (h : |x| < 1) : binExp x ≤ -1 := by
  have hpos : 0 < |x| := abs_pos.mpr hx
  have hl : Int.log 2 |x| < 0 :=
    (Int.lt_zpow_iff_log_lt (by norm_num : 1 < 2) hpos).mp (by rw [zpow_zero]; exact h)
  unfold binExp
  exact max_le (by omega) (by norm_num)

theorem binExp_nonneg_of_one_le_abs (x : ℚ) (h : 1 ≤ |x|) :
    0 ≤ binExp x ∧ (2 : ℚ) ^ binExp x ≤ |x| := by
  have hpos : 0 < |x| := lt_of_lt_of_le one_pos h
  have hx : x ≠ 0 := abs_pos.mp hpos
  have hl : 0 ≤ Int.log 2 |x| :=
    (Int.zpow_le_iff_le_log (by norm_num : 1 < 2) hpos).mp (by rw [zpow_zero]; exact h)
  have hb : 0 ≤ binExp x := le_trans hl (le_max_left _ _)
  exact ⟨hb, zpow_binExp_le_abs x hx (by omega)⟩

/-- Rounding keeps `[-1, 1]`, with an error of at most `2^-54` there. -/
theorem abs_fl_le_one (x : ℚ) (h : |x| ≤ 1) :
    |fl x| ≤ 1 ∧ |fl x - x| ≤ (2 : ℚ) ^ (-54 : Int) := by
  by_cases hx : x = 0
  · rw [hx, fl_zero]
    norm_num
  rcases lt_or_eq_of_le h with hlt | heq
  · have hb := binExp_neg_of_abs_lt_one x hx hlt
    constructor
    · refine le_trans (abs_fl_le_zpow x) ?_
      have : (2 : ℚ) ^ (binExp x + 1) ≤ 2 ^ (0 : Int) :=
        zpow_le_zpow_right₀ (by norm_num) (by omega)
      simpa using this
    · refine le_trans (fl_err x) ?_
      exact zpow_le_zpow_right₀ (by norm_num) (by omega)
  · rcases abs_eq (by norm_num : (0 : ℚ) ≤ 1) |>.mp heq with h1 | h1
    · rw [h1, fl_one]; norm_num
    · rw [h1, fl_neg_one]; norm_num

theorem fl_nonneg (x : ℚ) (h : 0 ≤ x) : 0 ≤ fl x := by
  unfold fl
  have hq : (0 : ℚ) < 2 ^ (binExp x - 52) := zpow_pos (by norm_num) _
  have hm := le_roundHalfEven 0 (x / 2 ^ (binExp x - 52)) (by
    push_cast
    exact div_nonneg h (le_of_lt hq))
  have : (0 : ℚ) ≤ (roundHalfEven (x / 2 ^ (binExp x - 52)) : ℚ) := by exact_mod_cast hm
  exact mul_nonneg this (le_of_lt hq)

theorem fl_nonpos (x : ℚ) (h : x ≤ 0) : fl x ≤ 0 := by
  unfold fl
  have hq : (0 : ℚ) < 2 ^ (binExp x - 52) := zpow_pos (by norm_num) _
  have hm := roundHalfEven_le 0 (x / 2 ^ (binExp x - 52)) (by
    push_cast
    exact div_nonpos_of_nonpos_of_nonneg h (le_of_lt hq))
  have : (roundHalfEven (x / 2 ^ (binExp x - 52)) : ℚ) ≤ 0 := by exact_mod_cast hm
  exact mul_nonpos_of_nonpos_of_nonneg this (le_of_lt hq)

/-- Rounding does not cross 1: a real above 1 rounds to a double at least 1. -/
theorem one_le_fl (x : ℚ) (h : 1 < x) : 1 ≤ fl x := by
  have hx : 1 ≤ |x| := le_trans (le_of_lt h) (le_abs_self x)
  obtain ⟨hb, hle⟩ := binExp_nonneg_of_one_le_abs x hx
  have h1 := zpow_le_abs_fl x hle
  have h2 : (1 : ℚ) ≤ 2 ^ binExp x := one_le_zpow₀ (by norm_num) hb
  rw [abs_of_nonneg (fl_nonneg x (by linarith))] at h1
  linarith

/-- Rounding does not cross -1. -/
theorem fl_le_neg_one (x : ℚ) (h : x < -1) : fl x ≤ -1 := by
  have hx : 1 ≤ |x| := le_trans (by linarith) (neg_le_abs x)
  obtain ⟨hb, hle⟩ := binExp_nonneg_of_one_le_abs x hx
  have h1 := zpow_le_abs_fl x hle
  have h2 : (1 : ℚ) ≤ 2 ^ binExp x := one_le_zpow₀ (by norm_num) hb
  rw [abs_of_nonpos (fl_nonpos x (by linarith))] at h1
  linarith

/-- Relative rounding error: at most `2^-53` of the result, plus `2^-1075` in the
subnormal range. -/
theorem fl_err_rel (x : ℚ) :
    |fl x - x| ≤ (2 : ℚ) ^ (-53 : Int) * |fl x| + (2 : ℚ) ^ (-1075 : Int) := by
  have hpos : (0 : ℚ) ≤ (2 : ℚ) ^ (-53 : Int) * |fl x| :=
    mul_nonneg (le_of_lt (zpow_pos (by norm_num) _)) (abs_nonneg _)
  have htiny : (0 : ℚ) < (2 : ℚ) ^ (-1075 : Int) := zpow_pos (by norm_num) _
  by_cases hx : x = 0
  · rw [hx, fl_zero, sub_zero, abs_zero]
    linarith
  by_cases hb : binExp x = -1022
  · have h := fl_err x
    rw [hb] at h
    have : (2 : ℚ) ^ ((-1022 : Int) - 53) = (2 : ℚ) ^ (-1075 : Int) := by norm_num
    rw [this] at h
    linarith
  · have h := fl_err x
    have h1 := zpow_le_abs_fl x (zpow_binExp_le_abs x hx hb)
    have e : (2 : ℚ) ^ (binExp x - 53) = (2 : ℚ) ^ (-53 : Int) * 2 ^ binExp x := by
      rw [← zpow_add₀ (by norm_num)]
      congr 1
      ring
    rw [e] at h
    have h2 : (2 : ℚ) ^ (-53 : Int) * 2 ^ binExp x ≤ (2 : ℚ) ^ (-53 : Int) * |fl x| :=
      mul_le_mul_of_nonneg_left h1 (le_of_lt (zpow_pos (by norm_num) _))
    linarith

theorem roundHalfEven_up (y : ℚ) (f : Int) (h1 : 1 / 2 < y - f) (h2 : y < f + 1) :
    roundHalfEven y = f + 1 := by
  have hf : ⌊y⌋ = f := by
    rw [Int.floor_eq_iff]
    constructor <;> linarith
  unfold roundHalfEven
  rw [hf, if_neg (by linarith), if_pos h1]

theorem roundHalfEven_tie_even (y : ℚ) (f : Int) (h : y = f + 1 / 2) (he : f % 2 = 0) :
    roundHalfEven y = f := by
  have hf : ⌊y⌋ = f := by
    rw [Int.floor_eq_iff]
    constructor <;> linarith
  unfold roundHalfEven
  rw [hf, if_neg (by linarith), if_neg (by linarith), if_pos he]

/-- A real that is an integer multiple of the unit of its binade is a double:
rounding leaves it unchanged. -/
theorem fl_exact (x : ℚ) (e n : Int) (hb : binExp x = e) (hx : x = (n : ℚ) * 2 ^ (e - 52)) :
    fl x = x := by
  have hq : (0 : ℚ) < 2 ^ (e - 52) := zpow_pos (by norm_num) _
  have hm : roundHalfEven (x / 2 ^ (e - 52)) = n := by
    have : x / 2 ^ (e - 52) = (n : ℚ) := by
      rw [hx]
      field_simp
    rw [this, roundHalfEven_intCast]
  rw [fl_eq x e n hb hm, ← hx]

theorem fl_neg_two : fl (-2) = -2 :=
  fl_exact (-2) 1 (-4503599627370496)
    (binExp_eq (-2) 1 (by norm_num) (by norm_num) (by norm_num)) (by norm_num)

/-- The double literal `0.05`. -/
theorem fl_005 : fl 0.05 = 3602879701896397 / 72057594037927936 := by
  have hb : binExp 0.05 = -5 :=
    binExp_eq 0.05 (-5) (by norm_num)
      (by rw [abs_of_pos (by norm_num)]; norm_num)
      (by rw [abs_of_pos (by norm_num)]; norm_num)
  have hm : roundHalfEven (0.05 / 2 ^ ((-5 : Int) - 52)) = 7205759403792793 + 1 :=
    roundHalfEven_up _ 7205759403792793 (by norm_num) (by norm_num)
  rw [fl_eq 0.05 (-5) _ hb hm]
  norm_num

theorem fl_005_step1 :
    fl (0 - 3602879701896397 / 72057594037927936) = -(3602879701896397 / 72057594037927936) :=
  (fl_exact _ (-5) (-7205759403792794)
    (binExp_eq _ (-5) (by norm_num)
      (by rw [abs_of_neg (by norm_num)]; norm_num)
      (by rw [abs_of_neg (by norm_num)]; norm_num)) (by norm_num)).trans (by norm_num)

theorem fl_005_step2 :
    fl (-(3602879701896397 / 72057594037927936) - 3602879701896397 / 72057594037927936)
      = -(3602879701896397 / 36028797018963968) :=
  (fl_exact _ (-4) (-7205759403792794)
    (binExp_eq _ (-4) (by norm_num)
      (by rw [abs_of_neg (by norm_num)]; norm_num)
      (by rw [abs_of_neg (by norm_num)]; norm_num)) (by norm_num)).trans (by norm_num)

/-- The sum `-0.1 - 0.05` of doubles is not a double: it is the midpoint of two
doubles and rounds to the one with the even last bit, `2^-56` below it. -/
theorem fl_005_step3 :
    fl (-(3602879701896397 / 36028797018963968) - 3602879701896397 / 72057594037927936)
      = -(10808639105689191 / 72057594037927936) - 1 / 72057594037927936 := by
  have hb : binExp (-(3602879701896397 / 36028797018963968)
      - 3602879701896397 / 72057594037927936) = -3 :=
    binExp_eq _ (-3) (by norm_num)
      (by rw [abs_of_neg (by norm_num)]; norm_num)
      (by rw [abs_of_neg (by norm_num)]; norm_num)
  have hm : roundHalfEven ((-(3602879701896397 / 36028797018963968)
      - 3602879701896397 / 72057594037927936) / 2 ^ ((-3 : Int) - 52))
        = -5404319552844596 :=
    roundHalfEven_tie_even _ (-5404319552844596) (by norm_num) (by norm_num)
  rw [fl_eq _ (-3) _ hb hm]
  norm_num

/-! ## Rate limit of the output in double arithmetic -/

/-! ## Rate limit of the output in double arithmetic -/

theorem MinMaxLimit_of_abs_le_one (x : ℚ) (h : |x| ≤ 1) : MinMaxLimit x 1 = x := by
  rw [abs_le] at h
  unfold MinMaxLimit
  rw [if_neg (by linarith), if_neg (by linarith)]

theorem MinMaxLimit_of_one_le (x : ℚ) (h : 1 ≤ x) : MinMaxLimit x 1 = 1 := by
  unfold MinMaxLimit
  split_ifs <;> linarith

theorem MinMaxLimit_of_le_neg_one (x : ℚ) (h : x ≤ -1) : MinMaxLimit x 1 = -1 := by
  unfold MinMaxLimit
  split_ifs <;> linarith

/-- One rate-limited and clamped output in double arithmetic stays within the
rate bound of the previous output, up to the rounding of `raw - prev` and of
`prev ± rate_max`. -/
theorem RateLimitF_close (raw prev r : ℚ) (hr : 0 ≤ r) (hlo : -1 ≤ prev)
    (hhi : prev ≤ 1) :
    |MinMaxLimit (RateLimitF raw prev r) 1 - prev|
      ≤ r + ((2 : ℚ) ^ (-53 : Int) * r + (2 : ℚ) ^ (-54 : Int)) := by
  have hu : (0 : ℚ) < (2 : ℚ) ^ (-53 : Int) := zpow_pos (by norm_num) _
  have ht : (0 : ℚ) < (2 : ℚ) ^ (-54 : Int) := zpow_pos (by norm_num) _
  have hur : 0 ≤ (2 : ℚ) ^ (-53 : Int) * r := mul_nonneg (le_of_lt hu) hr
  unfold RateLimitF
  split_ifs with h1 h2
  · by_cases hx : prev + r ≤ 1
    · have hb := abs_fl_le_one (prev + r) (abs_le.mpr ⟨by linarith, hx⟩)
      rw [MinMaxLimit_of_abs_le_one _ hb.1]
      have e : fl (prev + r) - prev = (fl (prev + r) - (prev + r)) + r := by ring
      rw [e]
      refine le_trans (abs_add _ _) ?_
      rw [abs_of_nonneg hr]
      linarith [hb.2]
    · rw [MinMaxLimit_of_one_le _ (one_le_fl _ (not_le.mp hx))]
      rw [abs_le]
      constructor <;> linarith [not_le.mp hx]
  · by_cases hx : -1 ≤ prev - r
    · have hb := abs_fl_le_one (prev - r) (abs_le.mpr ⟨hx, by linarith⟩)
      rw [MinMaxLimit_of_abs_le_one _ hb.1]
      have e : fl (prev - r) - prev = (fl (prev - r) - (prev - r)) + -r := by ring
      rw [e]
      refine le_trans (abs_add _ _) ?_
      rw [abs_neg, abs_of_nonneg hr]
      linarith [hb.2]
    · rw [MinMaxLimit_of_le_neg_one _ (fl_le_neg_one _ (not_le.mp hx))]
      rw [abs_le]
      constructor <;> linarith [not_le.mp hx]
  · have hfl : |fl (raw - prev)| ≤ r := abs_le.mpr ⟨by linarith, by linarith⟩
    have herr := fl_err_rel (raw - prev)
    have htiny : (2 : ℚ) ^ (-1075 : Int) ≤ (2 : ℚ) ^ (-54 : Int) :=
      zpow_le_zpow_right₀ (by norm_num) (by norm_num)
    have hmul : (2 : ℚ) ^ (-53 : Int) * |fl (raw - prev)| ≤ (2 : ℚ) ^ (-53 : Int) * r :=
      mul_le_mul_of_nonneg_left hfl (le_of_lt hu)
    have hx : |raw - prev| ≤ r + ((2 : ℚ) ^ (-53 : Int) * r + (2 : ℚ) ^ (-54 : Int)) := by
      have e : raw - prev = fl (raw - prev) - (fl (raw - prev) - (raw - prev)) := by ring
      rw [e]
      refine le_trans (abs_sub _ _) ?_
      linarith
    exact MinMaxLimit_close raw prev _ hx hlo hhi

theorem TotalErrorF_bounds (s : PID) :
    -1 ≤ (TotalErrorF s).2 ∧ (TotalErrorF s).2 ≤ 1 ∧
      (TotalErrorF s).1.prev_total_error_ = (TotalErrorF s).2 := by
  refine ⟨?_, ?_, rfl⟩
  · exact neg_le_MinMaxLimit _ 1 (by norm_num)
  · exact MinMaxLimit_le _ 1 (by norm_num)

theorem UpdateErrorF_prev_total (s : PID) (cte : ℚ) :
    (UpdateErrorF s cte).prev_total_error_ = s.prev_total_error_ ∧
      (UpdateErrorF s cte).error_rate_max_ = s.error_rate_max_ := by
  unfold UpdateErrorF
  constructor <;> (dsimp only; split_ifs <;> rfl)

theorem runF_rate_chain (r : ℚ) (hr : 0 ≤ r) (calls : List TickCall) :
    ∀ s : PID, s.error_rate_max_ = r → -1 ≤ s.prev_total_error_ →
      s.prev_total_error_ ≤ 1 →
      List.Chain
        (fun a b => |b - a| ≤ r + ((2 : ℚ) ^ (-53 : Int) * r + (2 : ℚ) ^ (-54 : Int)))
        s.prev_total_error_ (runF s calls).2 := by
  induction calls with
  | nil => intro s _ _ _; exact List.Chain.nil
  | cons c cs ih =>
    intro s hs hlo hhi
    cases c with
    | SetIntegralCut active => exact ih { s with i_cut_ := active } hs hlo hhi
    | UpdateError cte =>
      have h := UpdateErrorF_prev_total s cte
      have := ih (UpdateErrorF s cte) (h.2.trans hs) (h.1 ▸ hlo) (h.1 ▸ hhi)
      rw [h.1] at this
      exact this
    | TotalError =>
      have hb := TotalErrorF_bounds s
      have hc : |(TotalErrorF s).2 - s.prev_total_error_|
          ≤ r + ((2 : ℚ) ^ (-53 : Int) * r + (2 : ℚ) ^ (-54 : Int)) := by
        have h' : |(TotalErrorF s).2 - s.prev_total_error_|
            ≤ s.error_rate_max_
              + ((2 : ℚ) ^ (-53 : Int) * s.error_rate_max_ + (2 : ℚ) ^ (-54 : Int)) :=
          RateLimitF_close (fl (fl (s.p_error_ + s.i_error_) + s.d_error_))
            s.prev_total_error_ s.error_rate_max_ (hs ▸ hr) hlo hhi
        rw [hs] at h'
        exact h'
      have := ih (TotalErrorF s).1 hs (hb.2.2 ▸ hb.1) (hb.2.2 ▸ hb.2.1)
      rw [hb.2.2] at this
      exact List.Chain.cons hc this

/-- C2 as amended: from `Init` with rate bound `r ≥ 0`, along any sequence of
`UpdateError` and `TotalError` calls and writes of the cut flag, computed in
double arithmetic, the first value returned by `TotalError` is within
`r + (2^-53 * r + 2^-54)` of 0 and each later one is within that distance of the
one returned before it: the rate bound holds up to the rounding of the
subtraction `raw - prev` and of the sum `prev ± rate_max`. -/
theorem TotalErrorF_rate_limited (s0 : PID) (Kp Ki Kd i_max d_max d_smooth r : ℚ)
    (hr : 0 ≤ r) (calls : List TickCall) :
    List.Chain
      (fun a b => |b - a| ≤ r + ((2 : ℚ) ^ (-53 : Int) * r + (2 : ℚ) ^ (-54 : Int))) 0
      (runF (InitF s0 Kp Ki Kd i_max d_max d_smooth r) calls).2 :=
  runF_rate_chain r hr calls (InitF s0 Kp Ki Kd i_max d_max d_smooth r) rfl
    (by norm_num [InitF, Init, Reset]) (by norm_num [InitF, Init, Reset])

theorem RateLimitF_neg_two (prev r : ℚ) (hr0 : 0 ≤ r) (hr1 : r < 1) (hp : -1 < prev) :
    RateLimitF (-2) prev r = fl (prev - r) := by
  have h := fl_le_neg_one (-2 - prev) (by linarith)
  unfold RateLimitF
  rw [if_neg (by linarith), if_pos (by linarith)]

/-- One `TotalError` in double arithmetic with error terms -2, 0 and 0, a rate
bound below 1 and a previous output above -1: the raw total is -2 and the
output is the rounded `prev - rate_max`, clamped. -/
theorem TotalErrorF_step (s : PID) (hp : s.p_error_ = -2) (hi : s.i_error_ = 0)
    (hd : s.d_error_ = 0) (hr0 : 0 ≤ s.error_rate_max_) (hr1 : s.error_rate_max_ < 1)
    (hprev : -1 < s.prev_total_error_) :
    (TotalErrorF s).2
      = MinMaxLimit (fl (s.prev_total_error_ - s.error_rate_max_)) 1 := by
  show MinMaxLimit (RateLimitF (fl (fl (s.p_error_ + s.i_error_) + s.d_error_))
    s.prev_total_error_ s.error_rate_max_) 1 = _
  rw [hp, hi, hd, add_zero, add_zero, fl_neg_two, fl_neg_two,
    RateLimitF_neg_two _ _ hr0 hr1 hprev]

theorem updateIF_zero (u : PID) (cte : ℚ) (hcut : u.i_cut_ = false) (hi : u.i_error_ = 0)
    (hKi : u.Ki_ = 0) (him : u.i_max_ = 1) : updateIF u cte = 0 := by
  unfold updateIF
  rw [if_pos hcut, hi, hKi, him, neg_zero, zero_mul, fl_zero, add_zero, fl_zero]
  norm_num [MinMaxLimit]

theorem updateDF_zero (u : PID) (cte : ℚ) (hpd : u.prev_d_error_ = 0) (hKd : u.Kd_ = 0)
    (hsm : u.d_smooth_ = 1) (hdm : u.d_max_ = 1) : updateDF u cte = 0 := by
  unfold updateDF
  simp only [hpd, hKd, hsm, hdm, neg_zero, zero_mul, fl_zero, div_one, add_zero]
  norm_num [MinMaxLimit]

/-- The error terms after `UpdateError(2)` in double arithmetic from `Init(1, 0,
0, 1, 1, 1, r)`. -/
theorem UpdateErrorF_scenario (r : ℚ) :
    (UpdateErrorF (InitF blank 1 0 0 1 1 1 r) 2).p_error_ = -2 ∧
      (UpdateErrorF (InitF blank 1 0 0 1 1 1 r) 2).i_error_ = 0 ∧
      (UpdateErrorF (InitF blank 1 0 0 1 1 1 r) 2).d_error_ = 0 ∧
      (UpdateErrorF (InitF blank 1 0 0 1 1 1 r) 2).prev_total_error_ = 0 ∧
      (UpdateErrorF (InitF blank 1 0 0 1 1 1 r) 2).error_rate_max_ = r := by
  have hc : (2 : ℚ) ≠ (InitF blank 1 0 0 1 1 1 r).prev_cte_ := by
    show (2 : ℚ) ≠ 0
    norm_num
  have hp : fl (-(InitF blank 1 0 0 1 1 1 r).Kp_ * 2) = -2 := by
    show fl (-1 * 2) = -2
    norm_num
    exact fl_neg_two
  unfold UpdateErrorF
  dsimp only
  rw [if_pos hc]
  refine ⟨hp, ?_, ?_, rfl, rfl⟩
  · exact updateIF_zero
      { InitF blank 1 0 0 1 1 1 r with p_error_ := fl (-(InitF blank 1 0 0 1 1 1 r).Kp_ * 2) }
      2 rfl rfl rfl rfl
  · exact updateDF_zero
      { InitF blank 1 0 0 1 1 1 r with
        p_error_ := fl (-(InitF blank 1 0 0 1 1 1 r).Kp_ * 2)
        i_error_ := updateIF
          { InitF blank 1 0 0 1 1 1 r with
            p_error_ := fl (-(InitF blank 1 0 0 1 1 1 r).Kp_ * 2) } 2 }
      2 rfl rfl rfl rfl

/-- C2 as stated fails in double arithmetic: with the rate bound the double
`0.05`, `Init(1, 0, 0, 1, 1, 1, 0.05)`, `UpdateError(2)` and three `TotalError()`
calls return the doubles -0.05, -0.1 and -0.15000000000000002; the last differs
from the one before it by the rate bound plus `2^-56`. -/
theorem TotalErrorF_exceeds_rate_bound :
    (runF (InitF blank 1 0 0 1 1 1 (fl 0.05))
        [TickCall.UpdateError 2, TickCall.TotalError, TickCall.TotalError,
          TickCall.TotalError]).2
      = [-fl 0.05, -(2 * fl 0.05), -(3 * fl 0.05) - 1 / 72057594037927936] ∧
      ¬ List.Chain (fun a b : ℚ => |b - a| ≤ fl 0.05) 0
        (runF (InitF blank 1 0 0 1 1 1 (fl 0.05))
          [TickCall.UpdateError 2, TickCall.TotalError, TickCall.TotalError,
            TickCall.TotalError]).2 := by
  have hU := UpdateErrorF_scenario (fl 0.05)
  have hr0 : (0 : ℚ) ≤ fl 0.05 := by rw [fl_005]; norm_num
  have hr1 : fl 0.05 < 1 := by rw [fl_005]; norm_num
  have h1 : (TotalErrorF (UpdateErrorF (InitF blank 1 0 0 1 1 1 (fl 0.05)) 2)).2
      = -(3602879701896397 / 72057594037927936) := by
    rw [TotalErrorF_step (UpdateErrorF (InitF blank 1 0 0 1 1 1 (fl 0.05)) 2) hU.1 hU.2.1 hU.2.2.1
      (by rw [hU.2.2.2.2]; exact hr0) (by rw [hU.2.2.2.2]; exact hr1)
      (by rw [hU.2.2.2.1]; norm_num),
      hU.2.2.2.1, hU.2.2.2.2, fl_005, fl_005_step1]
    norm_num [MinMaxLimit]
  have h2 : (TotalErrorF (TotalErrorF (UpdateErrorF (InitF blank 1 0 0 1 1 1 (fl 0.05)) 2)).1).2
      = -(3602879701896397 / 36028797018963968) := by
    have hprev :
        (TotalErrorF
          (UpdateErrorF (InitF blank 1 0 0 1 1 1 (fl 0.05)) 2)).1.prev_total_error_
        = -(3602879701896397 / 72057594037927936) := h1
    have hrate :
        (TotalErrorF
          (UpdateErrorF (InitF blank 1 0 0 1 1 1 (fl 0.05)) 2)).1.error_rate_max_
        = fl 0.05 := hU.2.2.2.2
    rw [TotalErrorF_step (TotalErrorF (UpdateErrorF (InitF blank 1 0 0 1 1 1 (fl 0.05)) 2)).1
      hU.1 hU.2.1 hU.2.2.1 (by rw [hrate]; exact hr0) (by rw [hrate]; exact hr1)
      (by rw [hprev]; norm_num), hprev, hrate, fl_005, fl_005_step2]
    norm_num [MinMaxLimit]
  have h3 :
      (TotalErrorF (TotalErrorF (TotalErrorF
        (UpdateErrorF (InitF blank 1 0 0 1 1 1 (fl 0.05)) 2)).1).1).2
      = -(10808639105689191 / 72057594037927936) - 1 / 72057594037927936 := by
    have hprev :
        (TotalErrorF (TotalErrorF
          (UpdateErrorF (InitF blank 1 0 0 1 1 1 (fl 0.05)) 2)).1).1.prev_total_error_
        = -(3602879701896397 / 36028797018963968) := h2
    have hrate :
        (TotalErrorF (TotalErrorF
          (UpdateErrorF (InitF blank 1 0 0 1 1 1 (fl 0.05)) 2)).1).1.error_rate_max_
        = fl 0.05 := hU.2.2.2.2
    rw [TotalErrorF_step
        (TotalErrorF (TotalErrorF
          (UpdateErrorF (InitF blank 1 0 0 1 1 1 (fl 0.05)) 2)).1).1
      hU.1 hU.2.1 hU.2.2.1 (by rw [hrate]; exact hr0) (by rw [hrate]; exact hr1)
      (by rw [hprev]; norm_num), hprev, hrate, fl_005, fl_005_step3]
    norm_num [MinMaxLimit]
  have hout : (runF (InitF blank 1 0 0 1 1 1 (fl 0.05))
      [TickCall.UpdateError 2, TickCall.TotalError, TickCall.TotalError,
        TickCall.TotalError]).2
      = [-fl 0.05, -(2 * fl 0.05), -(3 * fl 0.05) - 1 / 72057594037927936] := by
    show [_, _, _] = _
    rw [h1, h2, h3, fl_005]
    norm_num
  refine ⟨hout, ?_⟩
  rw [hout]
  intro h
  rw [List.chain_cons, List.chain_cons, List.chain_cons] at h
  have h3' := h.2.2.1
  rw [fl_005] at h3'
  norm_num [abs_le] at h3'

/-! ## Twiddle: the probe round trip in double arithmetic -/

/-! ## Twiddle in double arithmetic: the probe round trip -/

/-- Witness of C2 as amended: the rate bound is the double `0.05`. -/
theorem TotalErrorF_rate_limited_witness :
    (0 : ℚ) ≤ fl 0.05 ∧
      List.Chain
        (fun a b : ℚ =>
          |b - a| ≤ fl 0.05 + ((2 : ℚ) ^ (-53 : Int) * fl 0.05 + (2 : ℚ) ^ (-54 : Int))) 0
        (runF (InitF blank 1 0 0 1 1 1 (fl 0.05))
          [TickCall.UpdateError 2, TickCall.TotalError, TickCall.SetIntegralCut true,
            TickCall.UpdateError (-3), TickCall.TotalError, TickCall.TotalError]).2 :=
  ⟨fl_nonneg _ (by norm_num),
    TotalErrorF_rate_limited blank 1 0 0 1 1 1 (fl 0.05) (fl_nonneg _ (by norm_num)) _⟩

end PID
